import Mathlib

/-! Verification of the twlc logging package (src/twlc.go).

The embedding models the `Twlc` configuration record, the color table, the
`setColor` transformation, and `WriteLog` with its three steps (file
persistence, colorization, console output).  File-system calls are resolved
by an abstract file system `FS`; a call of `WriteLog` or of a constructor
produces an `Outcome`: the final logger state together with the trace of
I/O events, or a fatal termination (`log.Fatalf`) with its diagnostic.
The `StructToJson` serializer is modelled over an inductive `Value` type
together with a JSON renderer matching `json.MarshalIndent(v, "", "    ")`
and a JSON parser, used to state the round-trip property.
-/

/- ------------------------------------------------------------------ -/
/- Decimal digits and dates (Go time.Format "20060102")               -/
/- ------------------------------------------------------------------ -/

/-- The decimal digit character for a value below ten, computed as Go
integer formatting does ('0' plus the digit). -/
def digitChar (d : Nat) : Char := Char.ofNat (48 + d)

/-- Numeric value of a decimal digit character. -/
def digitVal (c : Char) : Nat := c.toNat - 48

/-- Whether a character is a decimal digit. -/
def isDigitC (c : Char) : Bool := decide (48 ≤ c.toNat) && decide (c.toNat ≤ 57)

/-- Decimal digits of a natural number, most significant first, with enough
fuel; fuel-based so that it evaluates by kernel reduction. -/
def natDigitsAux : Nat → Nat → List Char
  | 0, _ => []
  | fuel + 1, n =>
    if n < 10 then [digitChar n] else natDigitsAux fuel (n / 10) ++ [digitChar (n % 10)]

/-- Decimal digits of a natural number, as Go strconv formatting produces. -/
def natDigits (n : Nat) : List Char := natDigitsAux (n + 1) n

/-- Decimal rendering of an integer, as Go strconv.AppendInt produces. -/
def intDigits (n : Int) : List Char :=
  if n < 0 then '-' :: natDigits n.natAbs else natDigits n.toNat

/-- Zero-pad a digit string on the left to the given width, as Go time
formatting pads year, month and day fields. -/
def padZeros (w : Nat) (l : List Char) : List Char :=
  List.replicate (w - l.length) '0' ++ l

/-- A calendar date, the part of `time.Now()` that `WriteLog` consumes. -/
structure Date where
  year : Nat
  month : Nat
  day : Nat
deriving DecidableEq

/-- Go layout "20060102": 4-digit zero-padded year, 2-digit zero-padded
month, 2-digit zero-padded day, no separators. -/
def formatDate (d : Date) : String :=
  String.mk (padZeros 4 (natDigits d.year) ++ padZeros 2 (natDigits d.month) ++
    padZeros 2 (natDigits d.day))

/-- Models Go `filepath.Join(dir, name)` for an already-clean directory path
without a trailing separator: `dir + "/" + name`. -/
def filepathJoin (dir name : String) : String := dir ++ "/" ++ name

/- ------------------------------------------------------------------ -/
/- Severities and the color table (twlc.go lines 12-30)               -/
/- ------------------------------------------------------------------ -/

/-- Go `type MessageType string`. -/
abbrev MessageType := String

def Info : MessageType := "INFO"

def Success : MessageType := "SUCCESS"

def Warning : MessageType := "WARNING"

def Error : MessageType := "ERROR"

def Debug : MessageType := "DEBUG"

def Trace : MessageType := "TRACE"

/-- The fixed `colorMap` of twlc.go: severity to ANSI escape sequence;
`none` models a key absent from the Go map. -/
def colorMap (mt : MessageType) : Option String :=
  if mt = Info then some "\x1b[34m"
  else if mt = Success then some "\x1b[32m"
  else if mt = Warning then some "\x1b[33m"
  else if mt = Error then some "\x1b[31m"
  else if mt = Debug then some "\x1b[35m"
  else if mt = Trace then some "\x1b[36m"
  else none

/- ------------------------------------------------------------------ -/
/- The logger state and setColor (twlc.go lines 34-43, 78-92)         -/
/- ------------------------------------------------------------------ -/

/-- The `Twlc` struct: six boolean flags, the log directory, and the derived
log file path. -/
structure Twlc where
  SaveInLogFile : Bool
  ShowInConsole : Bool
  ColorMessages : Bool
  BGColor : Bool
  FGColor : Bool
  WithTime : Bool
  LogDir : String
  LogFilePath : String
deriving DecidableEq

/-- `(t *Twlc) setColor`: a severity absent from the color table leaves both
parts unmodified; otherwise foreground mode wraps the message and background
mode wraps the severity tag, each with the color and the reset sequence. -/
def Twlc.setColor (t : Twlc) (messageType : MessageType) (message : String) :
    MessageType × String :=
  match colorMap messageType with
  | none => (messageType, message)
  | some color =>
    let message := if t.FGColor then color ++ message ++ "\x1b[0m" else message
    let messageType := if t.BGColor then color ++ messageType ++ "\x1b[0m" else messageType
    (messageType, message)

/- ------------------------------------------------------------------ -/
/- The abstract file system and event traces                          -/
/- ------------------------------------------------------------------ -/

/-- Result of an `os.Stat` call: the path exists, it does not exist
(`os.IsNotExist` holds of the error), or the call failed with some other
error (for example a permission error). -/
inductive StatRes where
  | found
  | missing
  | statError
deriving DecidableEq

/-- The abstract file system resolving the I/O calls of one run.  `closeOk`
records whether a `Close` call would report an error; the Go code never
inspects Close's result, so no definition below reads this field. -/
structure FS where
  stat : String → StatRes
  createOk : String → Bool
  mkdirOk : String → Bool
  openOk : String → Bool
  closeOk : String → Bool

/-- Observable I/O events of a run, in order. -/
inductive Ev where
  | statQ (path : String)
  | mkdir (path : String)
  | create (path : String)
  | openF (path : String)
  | writeF (path : String) (line : String)
  | closeF (path : String)
  | printC (s : String)
deriving DecidableEq

/-- Result of a helper step: completion with its events, or process
termination via `log.Fatalf` with the diagnostic and the events so far. -/
inductive StepRes where
  | ok (evs : List Ev)
  | fatal (diag : String) (evs : List Ev)
deriving DecidableEq

/-- Result of a whole call: the final logger state with the event trace, or
process termination with the diagnostic and the partial trace. -/
inductive Outcome where
  | normal (t : Twlc) (evs : List Ev)
  | fatal (diag : String) (evs : List Ev)
deriving DecidableEq

/-- `(t *Twlc) createLogFile`: stat the path; only when the error is
IsNotExist, create the file (fatal on failure) and close the new handle.  A
stat result of `found` or of any other error skips creation, discarding the
error. -/
def createLogFile (fs : FS) (path : String) : StepRes :=
  match fs.stat path with
  | .missing =>
    if fs.createOk path then .ok [.statQ path, .create path, .closeF path]
    else .fatal "Failed to create log file" [.statQ path]
  | _ => .ok [.statQ path]

/-- `createLogDir`: stat the directory; only when the error is IsNotExist,
create it recursively (fatal on failure). -/
def createLogDir (fs : FS) (logDir : String) : StepRes :=
  match fs.stat logDir with
  | .missing =>
    if fs.mkdirOk logDir then .ok [.statQ logDir, .mkdir logDir]
    else .fatal "Failed to create log directory" [.statQ logDir]
  | _ => .ok [.statQ logDir]

/-- The log file path recomputed on a persisting write:
`filepath.Join(t.LogDir, "twlc_" + date + ".log")`. -/
def logPathOn (t : Twlc) (now : Date) : String :=
  filepathJoin t.LogDir ("twlc_" ++ formatDate now ++ ".log")

/-- The line the file logger (`log.New(file, "", log.LstdFlags)`) writes:
`ts` models the standard date-time prefix, `src` the `Lshortfile` source
location added when `WithTime` is set; the log package appends a newline. -/
def fileLine (ts src : String) (withTime : Bool) (messageType : MessageType)
    (message : String) : String :=
  ts ++ (if withTime then src else "") ++ "[" ++ messageType ++ "] " ++ message ++ "\n"

/-- The console output of one write: with `WithTime` the standard log package
prints its date-time prefix then the bracketed message with a newline, else
`fmt.Printf` prints the bracketed message with an explicit newline. -/
def consoleLine (ts : String) (withTime : Bool) (messageType : MessageType)
    (message : String) : String :=
  if withTime then ts ++ "[" ++ messageType ++ "] " ++ message ++ "\n"
  else "[" ++ messageType ++ "] " ++ message ++ "\n"

/-- One call of `(t *Twlc) WriteLog` over the abstract file system `fs` at
date `now`.  Step 1 (file persistence) recomputes the path, assigns
`t.LogFilePath`, creates the file if missing, opens it for appending (fatal
on failure) and writes the line; its deferred `file.Close()` runs when the
whole function returns, hence after steps 2 and 3.  Step 2 colorizes when
enabled; step 3 prints to the console when enabled. -/
def Twlc.WriteLog (t : Twlc) (fs : FS) (now : Date) (ts src : String)
    (messageType : MessageType) (message : String) : Outcome :=
  let fileStep : StepRes × Twlc × Option String :=
    if t.SaveInLogFile then
      let path := logPathOn t now
      let t1 : Twlc := { t with LogFilePath := path }
      match createLogFile fs path with
      | .fatal diag evs => (.fatal diag evs, t1, none)
      | .ok evs =>
        if fs.openOk path then
          (.ok (evs ++ [.openF path,
              .writeF path (fileLine ts src t1.WithTime messageType message)]),
            t1, some path)
        else (.fatal "Failed to open log file" evs, t1, none)
    else (.ok [], t, none)
  match fileStep with
  | (.fatal diag evs, _, _) => .fatal diag evs
  | (.ok evs, t1, pending) =>
    let colored :=
      if t1.ColorMessages then t1.setColor messageType message
      else (messageType, message)
    let evs :=
      if t1.ShowInConsole then
        evs ++ [.printC (consoleLine ts t1.WithTime colored.1 colored.2)]
      else evs
    let evs :=
      match pending with
      | some path => evs ++ [.closeF path]
      | none => evs
    .normal t1 evs

/-- Per-severity shorthand `(t *Twlc) Error`. -/
def Twlc.error (t : Twlc) (fs : FS) (now : Date) (ts src : String)
    (message : String) : Outcome :=
  t.WriteLog fs now ts src Error message

/-- Per-severity shorthand `(t *Twlc) Warning`. -/
def Twlc.warning (t : Twlc) (fs : FS) (now : Date) (ts src : String)
    (message : String) : Outcome :=
  t.WriteLog fs now ts src Warning message

/-- Per-severity shorthand `(t *Twlc) Info`. -/
def Twlc.info (t : Twlc) (fs : FS) (now : Date) (ts src : String)
    (message : String) : Outcome :=
  t.WriteLog fs now ts src Info message

/-- Per-severity shorthand `(t *Twlc) Success`. -/
def Twlc.success (t : Twlc) (fs : FS) (now : Date) (ts src : String)
    (message : String) : Outcome :=
  t.WriteLog fs now ts src Success message

/-- Per-severity shorthand `(t *Twlc) Debug`. -/
def Twlc.debug (t : Twlc) (fs : FS) (now : Date) (ts src : String)
    (message : String) : Outcome :=
  t.WriteLog fs now ts src Debug message

/-- Per-severity shorthand `(t *Twlc) Trace`. -/
def Twlc.trace (t : Twlc) (fs : FS) (now : Date) (ts src : String)
    (message : String) : Outcome :=
  t.WriteLog fs now ts src Trace message

/-- `NewTwlc`: ensure the log directory exists (fatal on creation failure)
and build the record; the `LogFilePath` field is left at the zero value. -/
def NewTwlc (fs : FS) (saveInLogFile ShowInConsole colorMessages bgColor fgColor
    withTime : Bool) (logDir : String) : Outcome :=
  match createLogDir fs logDir with
  | .fatal diag evs => .fatal diag evs
  | .ok evs =>
    .normal
      { SaveInLogFile := saveInLogFile, ShowInConsole := ShowInConsole,
        WithTime := withTime, ColorMessages := colorMessages, BGColor := bgColor,
        FGColor := fgColor, LogDir := logDir, LogFilePath := "" } evs

/-- A sequence of `WriteLog` calls; `none` when one of them is fatal. -/
def runWrites (fs : FS) (ts src : String) :
    Twlc → List (Date × MessageType × String) → Option Twlc
  | t, [] => some t
  | t, (now, mt, msg) :: rest =>
    match t.WriteLog fs now ts src mt msg with
    | .normal t' _ => runWrites fs ts src t' rest
    | .fatal _ _ => none

/- ------------------------------------------------------------------ -/
/- Trace observations                                                 -/
/- ------------------------------------------------------------------ -/

/-- The strings printed to the console, in order. -/
def consoleOut (evs : List Ev) : List String :=
  evs.filterMap fun e =>
    match e with
    | .printC s => some s
    | _ => none

/-- The lines written to the log file, with their paths, in order. -/
def fileWrites (evs : List Ev) : List (String × String) :=
  evs.filterMap fun e =>
    match e with
    | .writeF path line => some (path, line)
    | _ => none

/-- Events that acquire a file handle (`os.Create`, `os.OpenFile`). -/
def acquiresHandle : Ev → Bool
  | .create _ => true
  | .openF _ => true
  | _ => false

/-- Events that release a file handle (`file.Close`). -/
def releasesHandle : Ev → Bool
  | .closeF _ => true
  | _ => false

def isCreateEv : Ev → Bool
  | .create _ => true
  | _ => false

def isOpenEv : Ev → Bool
  | .openF _ => true
  | _ => false

def isMkdirEv : Ev → Bool
  | .mkdir _ => true
  | _ => false

def isPrintEv : Ev → Bool
  | .printC _ => true
  | _ => false

def acquireCount (evs : List Ev) : Nat := (evs.filter acquiresHandle).length

def releaseCount (evs : List Ev) : Nat := (evs.filter releasesHandle).length

/-- Whether every handle release in the trace happens before every console
print, the ordering the specification asserts for the file-persistence step:
no close event may occur after a print event. -/
def closesPrecedePrints : List Ev → Bool
  | [] => true
  | .printC _ :: rest => !(rest.any releasesHandle) && closesPrecedePrints rest
  | _ :: rest => closesPrecedePrints rest

/-- Whether a string contains the ANSI escape character. -/
def containsEsc (s : String) : Bool := s.data.any fun c => c = '\x1b'

/-- A file system on which every call succeeds and every path exists. -/
def fsAllOk : FS :=
  { stat := fun _ => .found, createOk := fun _ => true, mkdirOk := fun _ => true,
    openOk := fun _ => true, closeOk := fun _ => true }

/- ------------------------------------------------------------------ -/
/- JSON values (StructToJson, twlc.go lines 141-147)                  -/
/- ------------------------------------------------------------------ -/

mutual
/-- Go values as encoding/json sees them: the JSON-representable parts
(nil, booleans, integer numbers, strings, slices in order, structs as
ordered named fields) plus a single constructor standing for any value
`json.Marshal` cannot encode — a cyclic pointer structure or an unsupported
type such as a channel or function — which an inductive type cannot contain
directly. -/
inductive Value where
  | null : Value
  | bool (b : Bool) : Value
  | int (n : Int) : Value
  | str (s : List Char) : Value
  | arr (elems : ValueList) : Value
  | obj (fields : MemberList) : Value
  | unsupported : Value
deriving DecidableEq
/-- The elements of a JSON array value. -/
inductive ValueList where
  | nil : ValueList
  | cons (head : Value) (tail : ValueList) : ValueList
deriving DecidableEq
/-- The named fields of a JSON object value, in struct order. -/
inductive MemberList where
  | nil : MemberList
  | cons (key : List Char) (val : Value) (tail : MemberList) : MemberList
deriving DecidableEq
end

mutual
/-- Structural size, used as parser fuel in the round-trip proof. -/
def sizeV : Value → Nat
  | .arr l => sizeL l + 1
  | .obj m => sizeM m + 1
  | _ => 1
def sizeL : ValueList → Nat
  | .nil => 1
  | .cons v t => sizeV v + sizeL t + 1
def sizeM : MemberList → Nat
  | .nil => 1
  | .cons _ v t => sizeV v + sizeM t + 1
end

mutual
/-- Whether a value is composed only of primitives, ordered sequences and
field records, that is, contains no `unsupported` part. -/
def goodV : Value → Bool
  | .null | .bool _ | .int _ | .str _ => true
  | .arr l => goodL l
  | .obj m => goodM m
  | .unsupported => false
def goodL : ValueList → Bool
  | .nil => true
  | .cons v t => goodV v && goodL t
def goodM : MemberList → Bool
  | .nil => true
  | .cons _ v t => goodV v && goodM t
end

/-- The lowercase hexadecimal digit character for a value below sixteen, as
the Go JSON encoder draws it from its "0123456789abcdef" table. -/
def hexChar (n : Nat) : Char :=
  if n < 10 then Char.ofNat (48 + n) else Char.ofNat (87 + n)

/-- Value of a hexadecimal digit character, accepting either case. -/
def hexVal (c : Char) : Option Nat :=
  if 48 ≤ c.toNat ∧ c.toNat ≤ 57 then some (c.toNat - 48)
  else if 97 ≤ c.toNat ∧ c.toNat ≤ 102 then some (c.toNat - 87)
  else if 65 ≤ c.toNat ∧ c.toNat ≤ 70 then some (c.toNat - 55)
  else none

/-- Per-character JSON string escaping as the Go encoder produces it with
its default HTML escaping: quote, backslash, newline, carriage return and
tab get two-character escapes; other control characters, the HTML-sensitive
characters and U+2028/U+2029 become lowercase u escapes; every other
character stands for itself. -/
def escChar (c : Char) : List Char :=
  if c = '"' then ['\\', '"']
  else if c = '\\' then ['\\', '\\']
  else if c = '\n' then ['\\', 'n']
  else if c = '\r' then ['\\', 'r']
  else if c = '\t' then ['\\', 't']
  else if c.toNat < 32 then
    ['\\', 'u', '0', '0', hexChar (c.toNat / 16), hexChar (c.toNat % 16)]
  else if c = '<' ∨ c = '>' ∨ c = '&' then
    ['\\', 'u', '0', '0', hexChar (c.toNat / 16), hexChar (c.toNat % 16)]
  else if c.toNat = 8232 ∨ c.toNat = 8233 then
    ['\\', 'u', '2', '0', hexChar ((c.toNat / 16) % 16), hexChar (c.toNat % 16)]
  else [c]

/-- JSON escaping of a whole string body. -/
def escapeStr : List Char → List Char
  | [] => []
  | c :: rest => escChar c ++ escapeStr rest

/-- The indentation MarshalIndent produces with empty prefix and a
four-space indent at the given depth. -/
def indChars (d : Nat) : List Char := List.replicate (4 * d) ' '

mutual
/-- The document `json.MarshalIndent(v, "", "    ")` produces at nesting
depth `d`, as a character list.  Empty arrays and objects stay compact;
a non-empty one opens with a newline, indents each element one level
deeper, and closes on its own line at the current level; a key is
followed by a colon and one space.  Arbitrary on `.unsupported`, where
`marshalIndent` errors instead of rendering. -/
def renderV : Value → Nat → List Char
  | .null, _ => ['n', 'u', 'l', 'l']
  | .bool true, _ => ['t', 'r', 'u', 'e']
  | .bool false, _ => ['f', 'a', 'l', 's', 'e']
  | .int n, _ => intDigits n
  | .str s, _ => '"' :: (escapeStr s ++ ['"'])
  | .arr .nil, _ => ['[', ']']
  | .arr (.cons v t), d =>
    '[' :: '\n' :: (indChars (d + 1) ++ renderV v (d + 1) ++ renderVTail t (d + 1) ++
      '\n' :: (indChars d ++ [']']))
  | .obj .nil, _ => ['\x7b', '\x7d']
  | .obj (.cons k v t), d =>
    '\x7b' :: '\n' :: (indChars (d + 1) ++ ('"' :: (escapeStr k ++ ['"'])) ++
      ':' :: ' ' :: (renderV v (d + 1) ++ renderMTail t (d + 1) ++
        '\n' :: (indChars d ++ ['\x7d'])))
  | .unsupported, _ => []
/-- Rendering of the remaining array elements, each preceded by a comma,
a newline and the indentation. -/
def renderVTail : ValueList → Nat → List Char
  | .nil, _ => []
  | .cons v t, d =>
    ',' :: '\n' :: (indChars d ++ renderV v d ++ renderVTail t d)
/-- Rendering of the remaining object members. -/
def renderMTail : MemberList → Nat → List Char
  | .nil, _ => []
  | .cons k v t, d =>
    ',' :: '\n' :: (indChars d ++ ('"' :: (escapeStr k ++ ['"'])) ++
      ':' :: ' ' :: (renderV v d ++ renderMTail t d))
end

/-- The message of the Go encoder's UnsupportedValueError / cycle error, the
underlying cause `StructToJson` wraps. -/
def jsonUnsupportedMsg : String := "json: unsupported value"

/-- `json.MarshalIndent(v, "", "    ")`: the Go encoder walks the value and
errors when it reaches a part it cannot encode; extensionally it returns the
rendered document exactly when the value contains no such part, modelled by
the `goodV` guard. -/
def marshalIndent (v : Value) : Except String String :=
  if goodV v then .ok (String.mk (renderV v 0)) else .error jsonUnsupportedMsg

/-- `(t *Twlc) StructToJson`: the JSON text and a nil error, or the empty
string and an error wrapping the encoder's cause, modelling the Go pair
`(string, error)`. -/
def StructToJson (v : Value) : String × Option String :=
  match marshalIndent v with
  | .ok s => (s, none)
  | .error e => ("", some ("failed to convert struct to JSON: " ++ e))

/- ------------------------------------------------------------------ -/
/- A JSON parser, to state the round-trip property                    -/
/- ------------------------------------------------------------------ -/

/-- JSON insignificant whitespace. -/
def wsChar (c : Char) : Bool := c = ' ' || c = '\n' || c = '\t' || c = '\r'

/-- Drop leading insignificant whitespace. -/
def skipWs : List Char → List Char
  | [] => []
  | c :: rest => if wsChar c then skipWs rest else c :: rest

/-- Value of a two-character JSON string escape. -/
def unescChar (e : Char) : Option Char :=
  if e = '"' then some '"'
  else if e = '\\' then some '\\'
  else if e = '/' then some '/'
  else if e = 'b' then some '\x08'
  else if e = 'f' then some '\x0c'
  else if e = 'n' then some '\n'
  else if e = 'r' then some '\x0d'
  else if e = 't' then some '\t'
  else none

/-- Parse a JSON string body after its opening quote, up to and including
the closing quote, undoing the escapes. -/
def parseStrBody : List Char → Option (List Char × List Char)
  | [] => none
  | c :: rest =>
    if c = '"' then some ([], rest)
    else if c = '\\' then
      match rest with
      | [] => none
      | e :: r =>
        if e = 'u' then
          match r with
          | h1 :: h2 :: h3 :: h4 :: r2 =>
            match hexVal h1, hexVal h2, hexVal h3, hexVal h4 with
            | some a, some b, some c2, some d2 =>
              match parseStrBody r2 with
              | some (s, r3) =>
                some (Char.ofNat (((a * 16 + b) * 16 + c2) * 16 + d2) :: s, r3)
              | none => none
            | _, _, _, _ => none
          | _ => none
        else
          match unescChar e with
          | some ch =>
            match parseStrBody r with
            | some (s, r3) => some (ch :: s, r3)
            | none => none
          | none => none
    else
      match parseStrBody rest with
      | some (s, r3) => some (c :: s, r3)
      | none => none

/-- Greedy decimal digit run with an accumulator. -/
def parseDigitsAux : List Char → Nat → Nat × List Char
  | [], acc => (acc, [])
  | c :: rest, acc =>
    if isDigitC c then parseDigitsAux rest (acc * 10 + digitVal c) else (acc, c :: rest)

/-- Parse a non-empty decimal digit run. -/
def parseDigits : List Char → Option (Nat × List Char)
  | [] => none
  | c :: rest => if isDigitC c then some (parseDigitsAux rest (digitVal c)) else none

mutual
/-- Parse one JSON value (of the integer-numbered sublanguage the encoder
emits), skipping leading whitespace; fuel-based so that it evaluates by
kernel reduction. -/
def parseVal : Nat → List Char → Option (Value × List Char)
  | 0, _ => none
  | fuel + 1, input =>
    match skipWs input with
    | [] => none
    | c :: r =>
      if c = 'n' then
        match r with
        | 'u' :: 'l' :: 'l' :: r2 => some (.null, r2)
        | _ => none
      else if c = 't' then
        match r with
        | 'r' :: 'u' :: 'e' :: r2 => some (.bool true, r2)
        | _ => none
      else if c = 'f' then
        match r with
        | 'a' :: 'l' :: 's' :: 'e' :: r2 => some (.bool false, r2)
        | _ => none
      else if c = '"' then
        match parseStrBody r with
        | some (s, r2) => some (.str s, r2)
        | none => none
      else if c = '-' then
        match parseDigits r with
        | some (n, r2) => some (.int (-(n : Int)), r2)
        | none => none
      else if isDigitC c then
        match parseDigits (c :: r) with
        | some (n, r2) => some (.int (n : Int), r2)
        | none => none
      else if c = '[' then
        match skipWs r with
        | [] => none
        | c2 :: r2 =>
          if c2 = ']' then some (.arr .nil, r2)
          else
            match parseVal fuel (c2 :: r2) with
            | some (v, r3) =>
              match parseArrTail fuel r3 with
              | some (t, r4) => some (.arr (.cons v t), r4)
              | none => none
            | none => none
      else if c = '\x7b' then
        match skipWs r with
        | [] => none
        | c2 :: r2 =>
          if c2 = '\x7d' then some (.obj .nil, r2)
          else if c2 = '"' then
            match parseStrBody r2 with
            | some (k, r3) =>
              match skipWs r3 with
              | ':' :: r4 =>
                match parseVal fuel r4 with
                | some (v, r5) =>
                  match parseObjTail fuel r5 with
                  | some (m, r6) => some (.obj (.cons k v m), r6)
                  | none => none
                | none => none
              | _ => none
            | none => none
          else none
      else none
/-- Parse the remaining elements of an array, after one element. -/
def parseArrTail : Nat → List Char → Option (ValueList × List Char)
  | 0, _ => none
  | fuel + 1, input =>
    match skipWs input with
    | [] => none
    | c :: r =>
      if c = ']' then some (.nil, r)
      else if c = ',' then
        match parseVal fuel r with
        | some (v, r2) =>
          match parseArrTail fuel r2 with
          | some (t, r3) => some (.cons v t, r3)
          | none => none
        | none => none
      else none
/-- Parse the remaining members of an object, after one member. -/
def parseObjTail : Nat → List Char → Option (MemberList × List Char)
  | 0, _ => none
  | fuel + 1, input =>
    match skipWs input with
    | [] => none
    | c :: r =>
      if c = '\x7d' then some (.nil, r)
      else if c = ',' then
        match skipWs r with
        | '"' :: r2 =>
          match parseStrBody r2 with
          | some (k, r3) =>
            match skipWs r3 with
            | ':' :: r4 =>
              match parseVal fuel r4 with
              | some (v, r5) =>
                match parseObjTail fuel r5 with
                | some (m, r6) => some (.cons k v m, r6)
                | none => none
              | none => none
            | _ => none
          | none => none
        | _ => none
      else none
end

/-- Parse a complete JSON document: one value and nothing but whitespace
after it. -/
def parseJson (s : String) : Option Value :=
  match parseVal (s.data.length + 1) s.data with
  | some (v, rest) => if skipWs rest = [] then some v else none
  | none => none

/-- Whether the head of the remaining input is a digit; a context in which
a rendered number is followed by such input parses unambiguously. -/
def noDigitHead : List Char → Prop
  | [] => True
  | c :: _ => isDigitC c = false

/-- The console events of one write: the single print when the console sink
is enabled (with the colorized pair when colorization is on), else nothing.
A proof-layer abbreviation for the step-3 part of `WriteLog`. -/
def consoleEvs (t : Twlc) (ts : String) (mt : MessageType) (msg : String) : List Ev :=
  if t.ShowInConsole then
    [.printC (consoleLine ts t.WithTime
      (if t.ColorMessages then t.setColor mt msg else (mt, msg)).1
      (if t.ColorMessages then t.setColor mt msg else (mt, msg)).2)]
  else []

/-- A file system whose stat calls fail with an error that is not
IsNotExist (for example a permission error) and whose close calls report an
error; every other call succeeds. -/
def fsStatErr : FS :=
  { stat := fun _ => .statError, createOk := fun _ => true, mkdirOk := fun _ => true,
    openOk := fun _ => true, closeOk := fun _ => false }

/- ------------------------------------------------------------------ -/
/- Helper lemmas: the shapes of one write                             -/
/- ------------------------------------------------------------------ -/

theorem createLogFile_ok (fs : FS) (path : String) (evs : List Ev)
    (h : createLogFile fs path = .ok evs) :
    evs = [.statQ path] ∨ evs = [.statQ path, .create path, .closeF path] := by
  rcases hs : fs.stat path
  case found => simp [createLogFile, hs] at h; exact Or.inl h.symm
  case missing =>
    by_cases hc : fs.createOk path
    · simp [createLogFile, hs, hc] at h; exact Or.inr h.symm
    · simp [createLogFile, hs, hc] at h
  case statError => simp [createLogFile, hs] at h; exact Or.inl h.symm

theorem createLogFile_fatal (fs : FS) (path d : String) (evs : List Ev)
    (h : createLogFile fs path = .fatal d evs) :
    d = "Failed to create log file" ∧ evs = [.statQ path] ∧
      fs.stat path = .missing ∧ fs.createOk path = false := by
  rcases hs : fs.stat path
  case found => simp [createLogFile, hs] at h
  case missing =>
    by_cases hc : fs.createOk path
    · simp [createLogFile, hs, hc] at h
    · simp [createLogFile, hs, hc] at h
      exact ⟨h.1.symm, h.2.symm, rfl, by simpa using hc⟩
  case statError => simp [createLogFile, hs] at h

theorem createLogDir_ok (fs : FS) (dir : String) (evs : List Ev)
    (h : createLogDir fs dir = .ok evs) :
    evs = [.statQ dir] ∨ evs = [.statQ dir, .mkdir dir] := by
  rcases hs : fs.stat dir
  case found => simp [createLogDir, hs] at h; exact Or.inl h.symm
  case missing =>
    by_cases hc : fs.mkdirOk dir
    · simp [createLogDir, hs, hc] at h; exact Or.inr h.symm
    · simp [createLogDir, hs, hc] at h
  case statError => simp [createLogDir, hs] at h; exact Or.inl h.symm

theorem WriteLog_not_save (t : Twlc) (fs : FS) (now : Date) (ts src : String)
    (mt : MessageType) (msg : String) (h : t.SaveInLogFile = false) :
    t.WriteLog fs now ts src mt msg = .normal t (consoleEvs t ts mt msg) := by
  by_cases hsh : t.ShowInConsole <;>
    simp [Twlc.WriteLog, h, consoleEvs, hsh]

theorem WriteLog_save_normal (t : Twlc) (fs : FS) (now : Date) (ts src : String)
    (mt : MessageType) (msg : String) (evs0 : List Ev)
    (h : t.SaveInLogFile = true)
    (hcf : createLogFile fs (logPathOn t now) = .ok evs0)
    (ho : fs.openOk (logPathOn t now) = true) :
    t.WriteLog fs now ts src mt msg =
      .normal { t with LogFilePath := logPathOn t now }
        ((evs0 ++ [.openF (logPathOn t now),
            .writeF (logPathOn t now) (fileLine ts src t.WithTime mt msg)]) ++
          consoleEvs t ts mt msg ++ [.closeF (logPathOn t now)]) := by
  by_cases hsh : t.ShowInConsole <;>
    simp [Twlc.WriteLog, h, hcf, ho, consoleEvs, hsh, Twlc.setColor]

theorem WriteLog_save_fatalCreate (t : Twlc) (fs : FS) (now : Date) (ts src : String)
    (mt : MessageType) (msg d : String) (evs0 : List Ev)
    (h : t.SaveInLogFile = true)
    (hcf : createLogFile fs (logPathOn t now) = .fatal d evs0) :
    t.WriteLog fs now ts src mt msg = .fatal d evs0 := by
  simp [Twlc.WriteLog, h, hcf]

theorem WriteLog_save_openFail (t : Twlc) (fs : FS) (now : Date) (ts src : String)
    (mt : MessageType) (msg : String) (evs0 : List Ev)
    (h : t.SaveInLogFile = true)
    (hcf : createLogFile fs (logPathOn t now) = .ok evs0)
    (ho : fs.openOk (logPathOn t now) = false) :
    t.WriteLog fs now ts src mt msg = .fatal "Failed to open log file" evs0 := by
  simp [Twlc.WriteLog, h, hcf, ho]

theorem consoleOut_append (a b : List Ev) :
    consoleOut (a ++ b) = consoleOut a ++ consoleOut b := by
  simp [consoleOut]

theorem fileWrites_append (a b : List Ev) :
    fileWrites (a ++ b) = fileWrites a ++ fileWrites b := by
  simp [fileWrites]

theorem WriteLog_normal_state (t : Twlc) (fs : FS) (now : Date) (ts src : String)
    (mt : MessageType) (msg : String) (t' : Twlc) (evs : List Ev)
    (hrun : t.WriteLog fs now ts src mt msg = .normal t' evs) :
    t' = (if t.SaveInLogFile then { t with LogFilePath := logPathOn t now } else t) := by
  by_cases hsave : t.SaveInLogFile
  · rcases hcf : createLogFile fs (logPathOn t now) with evs0 | ⟨d, evs0⟩
    · by_cases ho : fs.openOk (logPathOn t now)
      · rw [WriteLog_save_normal t fs now ts src mt msg evs0 hsave hcf ho] at hrun
        rw [if_pos hsave]
        exact (Outcome.normal.inj hrun).1.symm
      · rw [WriteLog_save_openFail t fs now ts src mt msg evs0 hsave hcf
          (by simpa using ho)] at hrun
        simp at hrun
    · rw [WriteLog_save_fatalCreate t fs now ts src mt msg d evs0 hsave hcf] at hrun
      simp at hrun
  · rw [WriteLog_not_save t fs now ts src mt msg (by simpa using hsave)] at hrun
    rw [if_neg hsave]
    exact (Outcome.normal.inj hrun).1.symm

/-- C1: for every severity and message, a completed `write` on a logger with
console output enabled, colorization disabled and timestamps disabled prints
exactly the line `[S] M` followed by a single newline to the console — and
when the severity and message themselves contain no escape character, the
printed line contains none either. -/
theorem C1_console_plain (fs : FS) (now : Date) (ts src : String) (t : Twlc)
    (mt : MessageType) (msg : String) (t' : Twlc) (evs : List Ev)
    (hshow : t.ShowInConsole = true) (hcol : t.ColorMessages = false)
    (htime : t.WithTime = false)
    (hrun : t.WriteLog fs now ts src mt msg = .normal t' evs) :
    consoleOut evs = ["[" ++ mt ++ "] " ++ msg ++ "\n"] ∧
    ('\x1b' ∉ mt.data → '\x1b' ∉ msg.data →
      ∀ s ∈ consoleOut evs, '\x1b' ∉ s.data) := by
  have hce : consoleEvs t ts mt msg = [.printC ("[" ++ mt ++ "] " ++ msg ++ "\n")] := by
    simp [consoleEvs, hshow, hcol, consoleLine, htime]
  have hmain : consoleOut evs = ["[" ++ mt ++ "] " ++ msg ++ "\n"] := by
    by_cases hsave : t.SaveInLogFile
    · rcases hcf : createLogFile fs (logPathOn t now) with evs0 | ⟨d, evs0⟩
      · by_cases ho : fs.openOk (logPathOn t now)
        · rw [WriteLog_save_normal t fs now ts src mt msg evs0 hsave hcf ho] at hrun
          obtain ⟨ht', hevs⟩ := Outcome.normal.inj hrun
          subst hevs
          rcases createLogFile_ok fs _ evs0 hcf with h0 | h0 <;> subst h0 <;>
            simp [consoleOut_append, consoleOut, hce]
        · rw [WriteLog_save_openFail t fs now ts src mt msg evs0 hsave hcf
            (by simpa using ho)] at hrun
          simp at hrun
      · rw [WriteLog_save_fatalCreate t fs now ts src mt msg d evs0 hsave hcf] at hrun
        simp at hrun
    · rw [WriteLog_not_save t fs now ts src mt msg (by simpa using hsave)] at hrun
      obtain ⟨ht', hevs⟩ := Outcome.normal.inj hrun
      subst hevs
      simp [consoleOut, hce]
  refine ⟨hmain, ?_⟩
  intro hmt hmsg s hs
  rw [hmain] at hs
  simp at hs
  subst hs
  simp only [String.data_append, List.mem_append]
  push_neg
  refine ⟨⟨⟨⟨?_, hmt⟩, ?_⟩, hmsg⟩, ?_⟩ <;> decide

theorem C1_witness :
    consoleOut [Ev.printC "[ERROR] disk full\n"] = ["[ERROR] disk full\n"] :=
  (C1_console_plain fsAllOk ⟨2025, 1, 1⟩ "ts " "src " ⟨false, true, false, false, false, false, "logs", ""⟩
    Error "disk full" ⟨false, true, false, false, false, false, "logs", ""⟩
    [Ev.printC "[ERROR] disk full\n"] rfl rfl rfl (by decide)).1

/-- C2: for a severity in the color table, foreground mode wraps the message
with the severity's escape sequence and the reset sequence, background mode
wraps the severity tag, both may apply in one call, and a severity with no
entry leaves both unmodified; concretely, a logger with only console output,
colorization and foreground mode on, `error("disk full")` prints exactly
`[ERROR] \x1b[31mdisk full\x1b[0m` with a newline. -/
theorem C2_colorize (t : Twlc) (mt : MessageType) (msg color ts src : String) :
    (colorMap mt = some color → t.FGColor = true → t.BGColor = false →
      t.setColor mt msg = (mt, color ++ msg ++ "\x1b[0m")) ∧
    (colorMap mt = some color → t.FGColor = false → t.BGColor = true →
      t.setColor mt msg = (color ++ mt ++ "\x1b[0m", msg)) ∧
    (colorMap mt = some color → t.FGColor = true → t.BGColor = true →
      t.setColor mt msg = (color ++ mt ++ "\x1b[0m", color ++ msg ++ "\x1b[0m")) ∧
    (colorMap mt = none → t.setColor mt msg = (mt, msg)) ∧
    Twlc.error ⟨false, true, true, false, true, false, "logs", ""⟩ fsAllOk ⟨2025, 1, 1⟩
        ts src "disk full" =
      .normal ⟨false, true, true, false, true, false, "logs", ""⟩
        [.printC "[ERROR] \x1b[31mdisk full\x1b[0m\n"] := by
  refine ⟨?_, ?_, ?_, ?_, ?_⟩
  · intro hc hf hb; simp [Twlc.setColor, hc, hf, hb]
  · intro hc hf hb; simp [Twlc.setColor, hc, hf, hb]
  · intro hc hf hb; simp [Twlc.setColor, hc, hf, hb]
  · intro hc; simp [Twlc.setColor, hc]
  · rfl

theorem C2_witness :
    Twlc.setColor ⟨false, true, true, false, true, false, "logs", ""⟩ Error "disk full" =
      (Error, "\x1b[31m" ++ "disk full" ++ "\x1b[0m") :=
  (C2_colorize ⟨false, true, true, false, true, false, "logs", ""⟩ Error "disk full"
    "\x1b[31m" "ts " "src ").1 (by decide) rfl rfl

/-- C9: a completed `write` (and each per-severity shorthand, which is sugar
for `write` at its fixed severity) changes no configuration field: only the
derived `LogFilePath` field ever differs after the call. -/
theorem C9_config_frame (fs : FS) (now : Date) (ts src : String) (t : Twlc)
    (mt : MessageType) (msg : String) (t' : Twlc) (evs : List Ev)
    (hrun : t.WriteLog fs now ts src mt msg = .normal t' evs) :
    t'.SaveInLogFile = t.SaveInLogFile ∧ t'.ShowInConsole = t.ShowInConsole ∧
    t'.ColorMessages = t.ColorMessages ∧ t'.BGColor = t.BGColor ∧
    t'.FGColor = t.FGColor ∧ t'.WithTime = t.WithTime ∧ t'.LogDir = t.LogDir ∧
    (t.SaveInLogFile = false → t'.LogFilePath = t.LogFilePath) ∧
    (∀ u : Twlc,
      u.error fs now ts src msg = u.WriteLog fs now ts src Error msg ∧
      u.warning fs now ts src msg = u.WriteLog fs now ts src Warning msg ∧
      u.info fs now ts src msg = u.WriteLog fs now ts src Info msg ∧
      u.success fs now ts src msg = u.WriteLog fs now ts src Success msg ∧
      u.debug fs now ts src msg = u.WriteLog fs now ts src Debug msg ∧
      u.trace fs now ts src msg = u.WriteLog fs now ts src Trace msg) := by
  obtain rfl := WriteLog_normal_state t fs now ts src mt msg t' evs hrun
  refine ⟨?_, ?_, ?_, ?_, ?_, ?_, ?_, ?_, fun u => ⟨rfl, rfl, rfl, rfl, rfl, rfl⟩⟩ <;>
    by_cases hsave : t.SaveInLogFile <;> simp [hsave]

theorem C9_witness :
    (Twlc.mk false false false false false false "d" "p").LogDir =
      (Twlc.mk false false false false false false "d" "p").LogDir :=
  (C9_config_frame fsAllOk ⟨2025, 1, 1⟩ "ts " "src "
    ⟨false, false, false, false, false, false, "d", "p"⟩ Error "m"
    ⟨false, false, false, false, false, false, "d", "p"⟩ [] (by decide)).2.2.2.2.2.2.1

/-- C10: explicit construction leaves the derived log file path empty; it
stays empty over any run of writes with persistence disabled; and a
completed persisting write assigns it the non-empty date-stamped path. -/
theorem C10_initial_path (fs : FS) (ts src : String) :
    (∀ (sv sh cm bg fg wt : Bool) (dir : String) (t : Twlc) (evs : List Ev),
        NewTwlc fs sv sh cm bg fg wt dir = .normal t evs → t.LogFilePath = "") ∧
    (∀ (t : Twlc) (ws : List (Date × MessageType × String)),
        t.SaveInLogFile = false → runWrites fs ts src t ws = some t) ∧
    (∀ (t : Twlc) (now : Date) (mt : MessageType) (msg : String) (t' : Twlc)
        (evs : List Ev),
        t.SaveInLogFile = true → t.WriteLog fs now ts src mt msg = .normal t' evs →
        t'.LogFilePath = logPathOn t now ∧ t'.LogFilePath ≠ "") := by
  refine ⟨?_, ?_, ?_⟩
  · intro sv sh cm bg fg wt dir t evs h
    rcases hcd : createLogDir fs dir with evs0 | ⟨d, evs0⟩ <;> simp [NewTwlc, hcd] at h
    obtain ⟨h1, h2⟩ := h
    subst h1
    rfl
  · intro t ws hsave
    induction ws with
    | nil => rfl
    | cons w rest ih =>
      obtain ⟨now, mt, msg⟩ := w
      rw [runWrites, WriteLog_not_save t fs now ts src mt msg hsave]
      exact ih
  · intro t now mt msg t' evs hsave hrun
    obtain rfl := WriteLog_normal_state t fs now ts src mt msg t' evs hrun
    rw [if_pos hsave]
    refine ⟨rfl, ?_⟩
    intro h
    have h2 : logPathOn t now = "" := h
    have hmem : '/' ∈ (logPathOn t now).data := by
      simp only [logPathOn, filepathJoin, String.data_append, List.mem_append]
      exact Or.inl (Or.inr (by decide))
    rw [h2] at hmem
    exact absurd hmem (by decide)

theorem C10_witness :
    (Twlc.mk false true false false false false "logs" "").LogFilePath = "" :=
  (C10_initial_path fsAllOk "ts " "src ").1 false true false false false false "logs"
    (Twlc.mk false true false false false false "logs" "") [Ev.statQ "logs"] (by decide)

theorem acquireCount_append (a b : List Ev) :
    acquireCount (a ++ b) = acquireCount a + acquireCount b := by
  simp [acquireCount]

theorem releaseCount_append (a b : List Ev) :
    releaseCount (a ++ b) = releaseCount a + releaseCount b := by
  simp [releaseCount]

/-- C4 counterexample: on a write with persistence, console and colorization
(foreground) all enabled, the file sink does not receive the colorized copy
the claim asserts: the line written to the log file contains no escape
character at all, while the console line is the colorized one.  The file
write happens at twlc.go:62, before `setColor` runs at line 66. -/
theorem C4_counterexample :
    (Twlc.mk true true true false true false "logs" "").ColorMessages = true ∧
    Twlc.WriteLog ⟨true, true, true, false, true, false, "logs", ""⟩ fsAllOk ⟨2025, 1, 1⟩
        "2025/01/01 00:00:00 " "twlc.go:62: " Error "disk full" =
      .normal ⟨true, true, true, false, true, false, "logs", "logs/twlc_20250101.log"⟩
        [.statQ "logs/twlc_20250101.log",
         .openF "logs/twlc_20250101.log",
         .writeF "logs/twlc_20250101.log" "2025/01/01 00:00:00 [ERROR] disk full\n",
         .printC "[ERROR] \x1b[31mdisk full\x1b[0m\n",
         .closeF "logs/twlc_20250101.log"] ∧
    fileWrites
        [.statQ "logs/twlc_20250101.log",
         .openF "logs/twlc_20250101.log",
         .writeF "logs/twlc_20250101.log" "2025/01/01 00:00:00 [ERROR] disk full\n",
         .printC "[ERROR] \x1b[31mdisk full\x1b[0m\n",
         .closeF "logs/twlc_20250101.log"] =
      [("logs/twlc_20250101.log", "2025/01/01 00:00:00 [ERROR] disk full\n")] ∧
    containsEsc "2025/01/01 00:00:00 [ERROR] disk full\n" = false ∧
    containsEsc "[ERROR] \x1b[31mdisk full\x1b[0m\n" = true := by
  decide

/-- C4 (amended): the colorized severity tag and message, computed once by
`setColor`, are what the console sink receives; the file sink receives the
uncolorized line, written before colorization runs; with colorization
disabled the console line is built from the unmodified pair. -/
theorem C4_sink_copies (fs : FS) (now : Date) (ts src : String) (t : Twlc)
    (mt : MessageType) (msg : String) (t' : Twlc) (evs : List Ev)
    (hrun : t.WriteLog fs now ts src mt msg = .normal t' evs) :
    consoleOut evs =
      (if t.ShowInConsole then
        [consoleLine ts t.WithTime
          (if t.ColorMessages then t.setColor mt msg else (mt, msg)).1
          (if t.ColorMessages then t.setColor mt msg else (mt, msg)).2]
      else []) ∧
    fileWrites evs =
      (if t.SaveInLogFile then [(logPathOn t now, fileLine ts src t.WithTime mt msg)]
      else []) := by
  by_cases hsave : t.SaveInLogFile
  · rcases hcf : createLogFile fs (logPathOn t now) with evs0 | ⟨d, evs0⟩
    · by_cases ho : fs.openOk (logPathOn t now)
      · rw [WriteLog_save_normal t fs now ts src mt msg evs0 hsave hcf ho] at hrun
        obtain ⟨ht', hevs⟩ := Outcome.normal.inj hrun
        subst hevs
        rcases createLogFile_ok fs _ evs0 hcf with h0 | h0 <;> subst h0 <;>
          by_cases hsh : t.ShowInConsole <;>
            simp [consoleOut_append, fileWrites_append, consoleOut, fileWrites,
              consoleEvs, hsh, hsave]
      · rw [WriteLog_save_openFail t fs now ts src mt msg evs0 hsave hcf
          (by simpa using ho)] at hrun
        simp at hrun
    · rw [WriteLog_save_fatalCreate t fs now ts src mt msg d evs0 hsave hcf] at hrun
      simp at hrun
  · rw [WriteLog_not_save t fs now ts src mt msg (by simpa using hsave)] at hrun
    obtain ⟨ht', hevs⟩ := Outcome.normal.inj hrun
    subst hevs
    by_cases hsh : t.ShowInConsole <;>
      simp [consoleOut, fileWrites, consoleEvs, hsh, hsave]

theorem C4_witness :
    consoleOut [Ev.printC "[ERROR] \x1b[31mdisk full\x1b[0m\n"] =
      ["[ERROR] \x1b[31mdisk full\x1b[0m\n"] :=
  (C4_sink_copies fsAllOk ⟨2025, 1, 1⟩ "ts " "src "
    ⟨false, true, true, false, true, false, "logs", ""⟩ Error "disk full"
    ⟨false, true, true, false, true, false, "logs", ""⟩
    [Ev.printC "[ERROR] \x1b[31mdisk full\x1b[0m\n"] (by decide)).1

/-- C5 counterexample: the deferred `file.Close()` of a persisting write
runs when `WriteLog` returns, after the console step, not before the
colorization and console steps as the claim asserts: in this completed
write's trace the close event follows the console print. -/
theorem C5_counterexample :
    Twlc.WriteLog ⟨true, true, true, false, true, false, "logs", ""⟩ fsAllOk ⟨2025, 1, 1⟩
        "2025/01/01 00:00:00 " "twlc.go:62: " Error "out of memory" =
      .normal ⟨true, true, true, false, true, false, "logs", "logs/twlc_20250101.log"⟩
        [.statQ "logs/twlc_20250101.log",
         .openF "logs/twlc_20250101.log",
         .writeF "logs/twlc_20250101.log" "2025/01/01 00:00:00 [ERROR] out of memory\n",
         .printC "[ERROR] \x1b[31mout of memory\x1b[0m\n",
         .closeF "logs/twlc_20250101.log"] ∧
    closesPrecedePrints
        [.statQ "logs/twlc_20250101.log",
         .openF "logs/twlc_20250101.log",
         .writeF "logs/twlc_20250101.log" "2025/01/01 00:00:00 [ERROR] out of memory\n",
         .printC "[ERROR] \x1b[31mout of memory\x1b[0m\n",
         .closeF "logs/twlc_20250101.log"] = false := by
  decide

/-- C5 (amended): every handle acquired during one `WriteLog` call is
released within that same call — acquisitions and releases balance on every
outcome, so nothing is cached across calls, and on the fatal paths no handle
is open at termination — and on a completed persisting write the deferred
close is the last event of the call, hence after the console step. -/
theorem C5_scoped_handles (fs : FS) (now : Date) (ts src : String) (t : Twlc)
    (mt : MessageType) (msg : String) :
    (∀ t' evs, t.WriteLog fs now ts src mt msg = .normal t' evs →
      acquireCount evs = releaseCount evs ∧
      (t.SaveInLogFile = true → ∃ evs', evs = evs' ++ [.closeF (logPathOn t now)])) ∧
    (∀ d evs, t.WriteLog fs now ts src mt msg = .fatal d evs →
      acquireCount evs = releaseCount evs) := by
  constructor
  · intro t' evs hrun
    by_cases hsave : t.SaveInLogFile
    · rcases hcf : createLogFile fs (logPathOn t now) with evs0 | ⟨d, evs0⟩
      · by_cases ho : fs.openOk (logPathOn t now)
        · rw [WriteLog_save_normal t fs now ts src mt msg evs0 hsave hcf ho] at hrun
          obtain ⟨ht', hevs⟩ := Outcome.normal.inj hrun
          subst hevs
          constructor
          · rcases createLogFile_ok fs _ evs0 hcf with h0 | h0 <;> subst h0 <;>
              by_cases hsh : t.ShowInConsole <;>
                simp [acquireCount_append, releaseCount_append, acquireCount,
                  releaseCount, consoleEvs, hsh, acquiresHandle, releasesHandle,
                  List.filter_cons]
          · intro _
            exact ⟨_, rfl⟩
        · rw [WriteLog_save_openFail t fs now ts src mt msg evs0 hsave hcf
            (by simpa using ho)] at hrun
          simp at hrun
      · rw [WriteLog_save_fatalCreate t fs now ts src mt msg d evs0 hsave hcf] at hrun
        simp at hrun
    · rw [WriteLog_not_save t fs now ts src mt msg (by simpa using hsave)] at hrun
      obtain ⟨ht', hevs⟩ := Outcome.normal.inj hrun
      subst hevs
      refine ⟨?_, fun hs => absurd hs (by simpa using hsave)⟩
      by_cases hsh : t.ShowInConsole <;>
        simp [acquireCount, releaseCount, consoleEvs, hsh, acquiresHandle,
          releasesHandle, List.filter_cons]
  · intro d evs hrun
    by_cases hsave : t.SaveInLogFile
    · rcases hcf : createLogFile fs (logPathOn t now) with evs0 | ⟨d0, evs0⟩
      · by_cases ho : fs.openOk (logPathOn t now)
        · rw [WriteLog_save_normal t fs now ts src mt msg evs0 hsave hcf ho] at hrun
          simp at hrun
        · rw [WriteLog_save_openFail t fs now ts src mt msg evs0 hsave hcf
            (by simpa using ho)] at hrun
          obtain ⟨hd, hevs⟩ := Outcome.fatal.inj hrun
          subst hevs
          rcases createLogFile_ok fs _ evs0 hcf with h0 | h0 <;> subst h0 <;>
            simp [acquireCount, releaseCount, acquiresHandle, releasesHandle,
              List.filter_cons]
      · rw [WriteLog_save_fatalCreate t fs now ts src mt msg d0 evs0 hsave hcf] at hrun
        obtain ⟨hd, hevs⟩ := Outcome.fatal.inj hrun
        subst hevs
        obtain ⟨hd0, h2, hstat, hcreate⟩ := createLogFile_fatal fs _ d0 evs0 hcf
        subst h2
        simp [acquireCount, releaseCount, acquiresHandle, releasesHandle,
          List.filter_cons]
    · rw [WriteLog_not_save t fs now ts src mt msg (by simpa using hsave)] at hrun
      simp at hrun

theorem C5_witness :
    acquireCount
        [Ev.statQ "logs/twlc_20250101.log",
         Ev.openF "logs/twlc_20250101.log",
         Ev.writeF "logs/twlc_20250101.log" "TS [ERROR] m\n",
         Ev.closeF "logs/twlc_20250101.log"] =
      releaseCount
        [Ev.statQ "logs/twlc_20250101.log",
         Ev.openF "logs/twlc_20250101.log",
         Ev.writeF "logs/twlc_20250101.log" "TS [ERROR] m\n",
         Ev.closeF "logs/twlc_20250101.log"] :=
  ((C5_scoped_handles fsAllOk ⟨2025, 1, 1⟩ "TS " "SRC "
    ⟨true, false, false, false, false, false, "logs", ""⟩ Error "m").1
    ⟨true, false, false, false, false, false, "logs", "logs/twlc_20250101.log"⟩
    [Ev.statQ "logs/twlc_20250101.log",
     Ev.openF "logs/twlc_20250101.log",
     Ev.writeF "logs/twlc_20250101.log" "TS [ERROR] m\n",
     Ev.closeF "logs/twlc_20250101.log"] (by decide)).1

/-- C6 counterexample: an error can arise in an operation and be neither
fatal nor returned to the caller.  Here every `os.Stat` call fails with an
error that is not IsNotExist (for example a permission error) and every
`Close` reports an error; `createLogFile` silently skips creation because
`os.IsNotExist(err)` is false (twlc.go:150), the close result is discarded
by `defer file.Close()` (twlc.go:56), and the write completes normally,
returning nothing — refuting "no error arising in any operation is silently
swallowed". -/
theorem C6_counterexample :
    fsStatErr.stat "logs/twlc_20250101.log" = .statError ∧
    fsStatErr.closeOk "logs/twlc_20250101.log" = false ∧
    Twlc.WriteLog ⟨true, false, false, false, false, false, "logs", ""⟩ fsStatErr
        ⟨2025, 1, 1⟩ "TS " "SRC " Error "m" =
      .normal ⟨true, false, false, false, false, false, "logs", "logs/twlc_20250101.log"⟩
        [.statQ "logs/twlc_20250101.log",
         .openF "logs/twlc_20250101.log",
         .writeF "logs/twlc_20250101.log" "TS [ERROR] m\n",
         .closeF "logs/twlc_20250101.log"] := by
  decide

/-- C6 (amended): a directory creation failure at construction, a log file
creation failure and a log file open failure during a persisting write each
terminate the process at once with their diagnostic — the open-failure
conjunct covers every run that reaches the open, that is, every completion
of the creation step (stat found, stat error, or file just created), and
the following two conjuncts show the creation step always either completes
or is itself the create-failure fatal, so a persisting write whose open
would fail always dies with one of the two diagnostics; a fatal trace
contains no console print and no file write; and no operation is retried —
at most one create, one open and one directory creation per call. -/
theorem C6_fatal_policy (fs : FS) :
    (∀ (sv sh cm bg fg wt : Bool) (dir : String),
        fs.stat dir = .missing → fs.mkdirOk dir = false →
        NewTwlc fs sv sh cm bg fg wt dir =
          .fatal "Failed to create log directory" [.statQ dir]) ∧
    (∀ (t : Twlc) (now : Date) (ts src : String) (mt : MessageType) (msg : String),
        t.SaveInLogFile = true → fs.stat (logPathOn t now) = .missing →
        fs.createOk (logPathOn t now) = false →
        t.WriteLog fs now ts src mt msg =
          .fatal "Failed to create log file" [.statQ (logPathOn t now)]) ∧
    (∀ (t : Twlc) (now : Date) (ts src : String) (mt : MessageType) (msg : String)
        (evs0 : List Ev),
        t.SaveInLogFile = true →
        createLogFile fs (logPathOn t now) = .ok evs0 →
        fs.openOk (logPathOn t now) = false →
        t.WriteLog fs now ts src mt msg = .fatal "Failed to open log file" evs0) ∧
    (∀ path : String,
        (∃ evs0, createLogFile fs path = .ok evs0) ∨
        createLogFile fs path = .fatal "Failed to create log file" [.statQ path]) ∧
    (∀ (t : Twlc) (now : Date) (ts src : String) (mt : MessageType) (msg : String),
        t.SaveInLogFile = true → fs.openOk (logPathOn t now) = false →
        ∃ evs, t.WriteLog fs now ts src mt msg = .fatal "Failed to open log file" evs ∨
          t.WriteLog fs now ts src mt msg = .fatal "Failed to create log file" evs) ∧
    (∀ (t : Twlc) (now : Date) (ts src : String) (mt : MessageType) (msg d : String)
        (evs : List Ev),
        t.WriteLog fs now ts src mt msg = .fatal d evs →
        consoleOut evs = [] ∧ fileWrites evs = []) ∧
    (∀ (t : Twlc) (now : Date) (ts src : String) (mt : MessageType) (msg : String)
        (t' : Twlc) (evs : List Ev),
        t.WriteLog fs now ts src mt msg = .normal t' evs →
        (evs.filter isCreateEv).length ≤ 1 ∧ (evs.filter isOpenEv).length ≤ 1) ∧
    (∀ (t : Twlc) (now : Date) (ts src : String) (mt : MessageType) (msg d : String)
        (evs : List Ev),
        t.WriteLog fs now ts src mt msg = .fatal d evs →
        (evs.filter isCreateEv).length ≤ 1 ∧ (evs.filter isOpenEv).length ≤ 1) ∧
    (∀ (sv sh cm bg fg wt : Bool) (dir : String) (t : Twlc) (evs : List Ev),
        NewTwlc fs sv sh cm bg fg wt dir = .normal t evs →
        (evs.filter isMkdirEv).length ≤ 1) := by
  refine ⟨?_, ?_, ?_, ?_, ?_, ?_, ?_, ?_, ?_⟩
  · intro sv sh cm bg fg wt dir hstat hmk
    simp [NewTwlc, createLogDir, hstat, hmk]
  · intro t now ts src mt msg hsave hstat hcreate
    have hcf : createLogFile fs (logPathOn t now) =
        .fatal "Failed to create log file" [.statQ (logPathOn t now)] := by
      simp [createLogFile, hstat, hcreate]
    exact WriteLog_save_fatalCreate t fs now ts src mt msg _ _ hsave hcf
  · intro t now ts src mt msg evs0 hsave hcf ho
    exact WriteLog_save_openFail t fs now ts src mt msg evs0 hsave hcf ho
  · intro path
    rcases hs : fs.stat path
    case found => exact Or.inl ⟨[.statQ path], by simp [createLogFile, hs]⟩
    case missing =>
      by_cases hc : fs.createOk path
      · exact Or.inl ⟨[.statQ path, .create path, .closeF path],
          by simp [createLogFile, hs, hc]⟩
      · exact Or.inr (by simp [createLogFile, hs, hc])
    case statError => exact Or.inl ⟨[.statQ path], by simp [createLogFile, hs]⟩
  · intro t now ts src mt msg hsave ho
    rcases hcf : createLogFile fs (logPathOn t now) with evs0 | ⟨d0, evs0⟩
    · exact ⟨evs0, Or.inl
        (WriteLog_save_openFail t fs now ts src mt msg evs0 hsave hcf ho)⟩
    · obtain ⟨hd0, h2, hstat, hcreate⟩ := createLogFile_fatal fs _ d0 evs0 hcf
      subst hd0
      exact ⟨evs0, Or.inr
        (WriteLog_save_fatalCreate t fs now ts src mt msg _ evs0 hsave hcf)⟩
  · intro t now ts src mt msg d evs hrun
    by_cases hsave : t.SaveInLogFile
    · rcases hcf : createLogFile fs (logPathOn t now) with evs0 | ⟨d0, evs0⟩
      · by_cases ho : fs.openOk (logPathOn t now)
        · rw [WriteLog_save_normal t fs now ts src mt msg evs0 hsave hcf ho] at hrun
          simp at hrun
        · rw [WriteLog_save_openFail t fs now ts src mt msg evs0 hsave hcf
            (by simpa using ho)] at hrun
          obtain ⟨hd, hevs⟩ := Outcome.fatal.inj hrun
          subst hevs
          rcases createLogFile_ok fs _ evs0 hcf with h0 | h0 <;> subst h0 <;>
            simp [consoleOut, fileWrites]
      · rw [WriteLog_save_fatalCreate t fs now ts src mt msg d0 evs0 hsave hcf] at hrun
        obtain ⟨hd, hevs⟩ := Outcome.fatal.inj hrun
        subst hevs
        obtain ⟨hd0, h2, hstat, hcreate⟩ := createLogFile_fatal fs _ d0 evs0 hcf
        subst h2
        simp [consoleOut, fileWrites]
    · rw [WriteLog_not_save t fs now ts src mt msg (by simpa using hsave)] at hrun
      simp at hrun
  · intro t now ts src mt msg t' evs hrun
    by_cases hsave : t.SaveInLogFile
    · rcases hcf : createLogFile fs (logPathOn t now) with evs0 | ⟨d0, evs0⟩
      · by_cases ho : fs.openOk (logPathOn t now)
        · rw [WriteLog_save_normal t fs now ts src mt msg evs0 hsave hcf ho] at hrun
          obtain ⟨ht', hevs⟩ := Outcome.normal.inj hrun
          subst hevs
          rcases createLogFile_ok fs _ evs0 hcf with h0 | h0 <;> subst h0 <;>
            by_cases hsh : t.ShowInConsole <;>
              simp [consoleEvs, hsh, isCreateEv, isOpenEv, List.filter_cons,
                List.filter_append]
        · rw [WriteLog_save_openFail t fs now ts src mt msg evs0 hsave hcf
            (by simpa using ho)] at hrun
          simp at hrun
      · rw [WriteLog_save_fatalCreate t fs now ts src mt msg d0 evs0 hsave hcf] at hrun
        simp at hrun
    · rw [WriteLog_not_save t fs now ts src mt msg (by simpa using hsave)] at hrun
      obtain ⟨ht', hevs⟩ := Outcome.normal.inj hrun
      subst hevs
      by_cases hsh : t.ShowInConsole <;>
        simp [consoleEvs, hsh, isCreateEv, isOpenEv, List.filter_cons]
  · intro t now ts src mt msg d evs hrun
    by_cases hsave : t.SaveInLogFile
    · rcases hcf : createLogFile fs (logPathOn t now) with evs0 | ⟨d0, evs0⟩
      · by_cases ho : fs.openOk (logPathOn t now)
        · rw [WriteLog_save_normal t fs now ts src mt msg evs0 hsave hcf ho] at hrun
          simp at hrun
        · rw [WriteLog_save_openFail t fs now ts src mt msg evs0 hsave hcf
            (by simpa using ho)] at hrun
          obtain ⟨hd, hevs⟩ := Outcome.fatal.inj hrun
          subst hevs
          rcases createLogFile_ok fs _ evs0 hcf with h0 | h0 <;> subst h0 <;>
            simp [isCreateEv, isOpenEv, List.filter_cons]
      · rw [WriteLog_save_fatalCreate t fs now ts src mt msg d0 evs0 hsave hcf] at hrun
        obtain ⟨hd, hevs⟩ := Outcome.fatal.inj hrun
        subst hevs
        obtain ⟨hd0, h2, hstat, hcreate⟩ := createLogFile_fatal fs _ d0 evs0 hcf
        subst h2
        simp [isCreateEv, isOpenEv, List.filter_cons]
    · rw [WriteLog_not_save t fs now ts src mt msg (by simpa using hsave)] at hrun
      simp at hrun
  · intro sv sh cm bg fg wt dir t evs hrun
    rcases hcd : createLogDir fs dir with evs0 | ⟨d0, evs0⟩ <;>
      simp [NewTwlc, hcd] at hrun
    obtain ⟨h1, h2⟩ := hrun
    subst h2
    rcases createLogDir_ok fs dir evs0 hcd with h0 | h0 <;> subst h0 <;>
      simp [isMkdirEv, List.filter_cons]

theorem C6_witness :
    NewTwlc (FS.mk (fun _ => .missing) (fun _ => true) (fun _ => false) (fun _ => true)
        (fun _ => true)) true true true true true true "logs" =
      .fatal "Failed to create log directory" [.statQ "logs"] :=
  (C6_fatal_policy (FS.mk (fun _ => .missing) (fun _ => true) (fun _ => false)
      (fun _ => true) (fun _ => true))).1
    true true true true true true "logs" rfl rfl

/- ------------------------------------------------------------------ -/
/- Decimal digit lemmas, for the date format and the JSON numbers     -/
/- ------------------------------------------------------------------ -/

theorem digitVal_digitChar (d : Nat) (h : d < 10) : digitVal (digitChar d) = d := by
  interval_cases d <;> decide

theorem isDigitC_digitChar (d : Nat) (h : d < 10) : isDigitC (digitChar d) = true := by
  interval_cases d <;> decide

theorem natDigitsAux_spec (f : Nat) : ∀ n, n < f →
    (∃ c tl, natDigitsAux f n = c :: tl) ∧
    (∀ c ∈ natDigitsAux f n, isDigitC c = true) ∧
    List.foldl (fun a c => a * 10 + digitVal c) 0 (natDigitsAux f n) = n := by
  induction f with
  | zero => intro n hn; omega
  | succ f ih =>
    intro n hn
    by_cases h10 : n < 10
    · simp only [natDigitsAux, if_pos h10]
      refine ⟨⟨_, _, rfl⟩, ?_, ?_⟩
      · intro c hc
        simp at hc
        subst hc
        exact isDigitC_digitChar n h10
      · simp [digitVal_digitChar n h10]
    · have hpos : 0 < n := by omega
      have hdiv : n / 10 < f := by
        have h1 : n / 10 < n := Nat.div_lt_self hpos (by norm_num)
        omega
      obtain ⟨⟨c, tl, hct⟩, hdig, hval⟩ := ih (n / 10) hdiv
      simp only [natDigitsAux, if_neg h10]
      refine ⟨⟨c, tl ++ [digitChar (n % 10)], by rw [hct]; rfl⟩, ?_, ?_⟩
      · intro x hx
        rcases List.mem_append.mp hx with hx | hx
        · exact hdig x hx
        · simp at hx
          subst hx
          exact isDigitC_digitChar _ (Nat.mod_lt n (by norm_num))
      · rw [List.foldl_append, hval]
        simp only [List.foldl_cons, List.foldl_nil]
        rw [digitVal_digitChar _ (Nat.mod_lt n (by norm_num))]
        omega

theorem natDigits_spec (n : Nat) :
    (∃ c tl, natDigits n = c :: tl) ∧ (∀ c ∈ natDigits n, isDigitC c = true) ∧
    List.foldl (fun a c => a * 10 + digitVal c) 0 (natDigits n) = n :=
  natDigitsAux_spec (n + 1) n (Nat.lt_succ_self n)

theorem natDigitsAux_length (f : Nat) : ∀ n k, n < f → n < 10 ^ k → 1 ≤ k →
    (natDigitsAux f n).length ≤ k := by
  induction f with
  | zero => intro n k hn; omega
  | succ f ih =>
    intro n k hn hnk hk
    by_cases h10 : n < 10
    · simp only [natDigitsAux, if_pos h10, List.length_singleton]
      exact hk
    · cases k with
      | zero => omega
      | succ k' =>
        have hk' : 1 ≤ k' := by
          by_contra hc
          have hz : k' = 0 := by omega
          subst hz
          simp at hnk
          omega
        have hdiv : n / 10 < f := by
          have h1 := Nat.div_lt_self (by omega : 0 < n) (by norm_num : 1 < 10)
          omega
        have hdivk : n / 10 < 10 ^ k' := by
          rw [Nat.div_lt_iff_lt_mul (by norm_num : 0 < 10)]
          calc n < 10 ^ (k' + 1) := hnk
          _ = 10 ^ k' * 10 := by rw [pow_succ]
        simp only [natDigitsAux, if_neg h10, List.length_append, List.length_singleton]
        have h2 := ih (n / 10) k' hdiv hdivk hk'
        omega

theorem natDigits_length (n k : Nat) (h : n < 10 ^ k) (hk : 1 ≤ k) :
    (natDigits n).length ≤ k :=
  natDigitsAux_length (n + 1) n k (Nat.lt_succ_self n) h hk

theorem foldl_replicate_zero (k : Nat) (l : List Char) :
    List.foldl (fun a c => a * 10 + digitVal c) 0 (List.replicate k '0' ++ l) =
      List.foldl (fun a c => a * 10 + digitVal c) 0 l := by
  induction k with
  | zero => simp
  | succ k ih =>
    rw [List.replicate_succ, List.cons_append, List.foldl_cons]
    have h0 : (0 : Nat) * 10 + digitVal '0' = 0 := by decide
    rw [h0]
    exact ih

theorem digitsVal_padZeros (w : Nat) (l : List Char) :
    List.foldl (fun a c => a * 10 + digitVal c) 0 (padZeros w l) =
      List.foldl (fun a c => a * 10 + digitVal c) 0 l :=
  foldl_replicate_zero (w - l.length) l

theorem padZeros_length (w : Nat) (l : List Char) (h : l.length ≤ w) :
    (padZeros w l).length = w := by
  simp [padZeros]
  omega

theorem formatDate_inj (d1 d2 : Date) (hm1 : d1.month < 100) (hd1 : d1.day < 100)
    (hm2 : d2.month < 100) (hd2 : d2.day < 100) :
    formatDate d1 = formatDate d2 ↔ d1 = d2 := by
  have h100 : ∀ x : Nat, x < 100 → x < 10 ^ 2 := by intro x hx; simpa using hx
  constructor
  · intro h
    have hdata : padZeros 4 (natDigits d1.year) ++ padZeros 2 (natDigits d1.month) ++
        padZeros 2 (natDigits d1.day) =
        padZeros 4 (natDigits d2.year) ++ padZeros 2 (natDigits d2.month) ++
        padZeros 2 (natDigits d2.day) := congrArg String.data h
    have lc1 : (padZeros 2 (natDigits d1.day)).length = 2 :=
      padZeros_length _ _ (natDigits_length _ 2 (h100 _ hd1) (by norm_num))
    have lc2 : (padZeros 2 (natDigits d2.day)).length = 2 :=
      padZeros_length _ _ (natDigits_length _ 2 (h100 _ hd2) (by norm_num))
    have lb1 : (padZeros 2 (natDigits d1.month)).length = 2 :=
      padZeros_length _ _ (natDigits_length _ 2 (h100 _ hm1) (by norm_num))
    have lb2 : (padZeros 2 (natDigits d2.month)).length = 2 :=
      padZeros_length _ _ (natDigits_length _ 2 (h100 _ hm2) (by norm_num))
    obtain ⟨hAB, hC⟩ := List.append_inj' hdata (by rw [lc1, lc2])
    obtain ⟨hA, hB⟩ := List.append_inj' hAB (by rw [lb1, lb2])
    have hy : d1.year = d2.year := by
      have hv := congrArg (List.foldl (fun a c => a * 10 + digitVal c) 0) hA
      rwa [digitsVal_padZeros, digitsVal_padZeros, (natDigits_spec d1.year).2.2,
        (natDigits_spec d2.year).2.2] at hv
    have hm : d1.month = d2.month := by
      have hv := congrArg (List.foldl (fun a c => a * 10 + digitVal c) 0) hB
      rwa [digitsVal_padZeros, digitsVal_padZeros, (natDigits_spec d1.month).2.2,
        (natDigits_spec d2.month).2.2] at hv
    have hd : d1.day = d2.day := by
      have hv := congrArg (List.foldl (fun a c => a * 10 + digitVal c) 0) hC
      rwa [digitsVal_padZeros, digitsVal_padZeros, (natDigits_spec d1.day).2.2,
        (natDigits_spec d2.day).2.2] at hv
    cases d1
    cases d2
    simp_all
  · rintro rfl
    rfl

theorem filepathJoin_name_inj (dir a b : String)
    (h : filepathJoin dir a = filepathJoin dir b) : a = b := by
  have hd := congrArg String.data h
  simp only [filepathJoin, String.data_append] at hd
  exact congrArg String.mk (List.append_cancel_left hd)

theorem wrap_inj (p q a b : String) (h : p ++ a ++ q = p ++ b ++ q) : a = b := by
  have hd := congrArg String.data h
  simp only [String.data_append] at hd
  exact congrArg String.mk (List.append_cancel_left (List.append_cancel_right hd))

theorem WriteLog_fileWrites (t : Twlc) (fs : FS) (now : Date) (ts src : String)
    (mt : MessageType) (msg : String) (t' : Twlc) (evs : List Ev)
    (hsave : t.SaveInLogFile = true)
    (hrun : t.WriteLog fs now ts src mt msg = .normal t' evs) :
    fileWrites evs = [(logPathOn t now, fileLine ts src t.WithTime mt msg)] := by
  rcases hcf : createLogFile fs (logPathOn t now) with evs0 | ⟨d, evs0⟩
  · by_cases ho : fs.openOk (logPathOn t now)
    · rw [WriteLog_save_normal t fs now ts src mt msg evs0 hsave hcf ho] at hrun
      obtain ⟨ht', hevs⟩ := Outcome.normal.inj hrun
      subst hevs
      rcases createLogFile_ok fs _ evs0 hcf with h0 | h0 <;> subst h0 <;>
        by_cases hsh : t.ShowInConsole <;>
          simp [fileWrites_append, fileWrites, consoleEvs, hsh]
    · rw [WriteLog_save_openFail t fs now ts src mt msg evs0 hsave hcf
        (by simpa using ho)] at hrun
      simp at hrun
  · rw [WriteLog_save_fatalCreate t fs now ts src mt msg d evs0 hsave hcf] at hrun
    simp at hrun

/-- C3: on every persisting write the file path is recomputed from the
current date as `<logDirectory>/twlc_<YYYYMMDD>.log` (zero-padded, no
separators, eight characters of date); two completed writes on the same
date append their lines to the same file, and distinct calendar dates give
distinct file paths. -/
theorem C3_date_path (fs : FS) (ts src : String) :
    (∀ (t : Twlc) (now : Date) (mt : MessageType) (msg : String) (t' : Twlc)
        (evs : List Ev), t.SaveInLogFile = true →
        t.WriteLog fs now ts src mt msg = .normal t' evs →
        t'.LogFilePath = logPathOn t now ∧
        logPathOn t now = filepathJoin t.LogDir ("twlc_" ++ formatDate now ++ ".log") ∧
        fileWrites evs = [(logPathOn t now, fileLine ts src t.WithTime mt msg)]) ∧
    (∀ y m d : Nat, y < 10000 → m < 100 → d < 100 →
        (formatDate ⟨y, m, d⟩).length = 8) ∧
    (∀ (t : Twlc) (d1 d2 : Date), d1.month < 100 → d1.day < 100 →
        d2.month < 100 → d2.day < 100 →
        (logPathOn t d1 = logPathOn t d2 ↔ d1 = d2)) ∧
    (∀ (t : Twlc) (now : Date) (mt1 msg1 mt2 msg2 : String) (t1 t2 : Twlc)
        (evs1 evs2 : List Ev), t.SaveInLogFile = true →
        t.WriteLog fs now ts src mt1 msg1 = .normal t1 evs1 →
        t1.WriteLog fs now ts src mt2 msg2 = .normal t2 evs2 →
        fileWrites evs1 = [(logPathOn t now, fileLine ts src t.WithTime mt1 msg1)] ∧
        fileWrites evs2 = [(logPathOn t now, fileLine ts src t.WithTime mt2 msg2)]) := by
  refine ⟨?_, ?_, ?_, ?_⟩
  · intro t now mt msg t' evs hsave hrun
    refine ⟨?_, rfl, WriteLog_fileWrites t fs now ts src mt msg t' evs hsave hrun⟩
    obtain rfl := WriteLog_normal_state t fs now ts src mt msg t' evs hrun
    rw [if_pos hsave]
  · intro y m d hy hm hd
    have hly : (natDigits y).length ≤ 4 :=
      natDigits_length _ 4 (by simpa using hy) (by norm_num)
    have hlm : (natDigits m).length ≤ 2 :=
      natDigits_length _ 2 (by simpa using hm) (by norm_num)
    have hld : (natDigits d).length ≤ 2 :=
      natDigits_length _ 2 (by simpa using hd) (by norm_num)
    show (padZeros 4 (natDigits y) ++ padZeros 2 (natDigits m) ++
      padZeros 2 (natDigits d)).length = 8
    rw [List.length_append, List.length_append, padZeros_length _ _ hly,
      padZeros_length _ _ hlm, padZeros_length _ _ hld]
  · intro t d1 d2 hm1 hd1 hm2 hd2
    constructor
    · intro h
      have hname := filepathJoin_name_inj t.LogDir _ _ h
      have hfd := wrap_inj "twlc_" ".log" _ _ hname
      exact (formatDate_inj d1 d2 hm1 hd1 hm2 hd2).mp hfd
    · rintro rfl
      rfl
  · intro t now mt1 msg1 mt2 msg2 t1 t2 evs1 evs2 hsave hrun1 hrun2
    refine ⟨WriteLog_fileWrites t fs now ts src mt1 msg1 t1 evs1 hsave hrun1, ?_⟩
    obtain rfl := WriteLog_normal_state t fs now ts src mt1 msg1 t1 evs1 hrun1
    rw [if_pos hsave] at hrun2
    exact WriteLog_fileWrites { t with LogFilePath := logPathOn t now } fs now ts src
      mt2 msg2 t2 evs2
      (show ({ t with LogFilePath := logPathOn t now } : Twlc).SaveInLogFile = true from hsave)
      hrun2

theorem C3_witness :
    logPathOn ⟨true, false, false, false, false, false, "logs", ""⟩ ⟨2025, 1, 1⟩ =
        logPathOn ⟨true, false, false, false, false, false, "logs", ""⟩ ⟨2025, 1, 2⟩ ↔
      (⟨2025, 1, 1⟩ : Date) = ⟨2025, 1, 2⟩ :=
  (C3_date_path fsAllOk "ts " "src ").2.2.1 ⟨true, false, false, false, false, false, "logs", ""⟩
    ⟨2025, 1, 1⟩ ⟨2025, 1, 2⟩ (by decide) (by decide) (by decide) (by decide)

/- ------------------------------------------------------------------ -/
/- Round-trip helper lemmas: escapes, digits, whitespace              -/
/- ------------------------------------------------------------------ -/

theorem hexVal_hexChar (q : Nat) (h : q < 16) : hexVal (hexChar q) = some q := by
  interval_cases q <;> rfl

theorem parseStrBody_escChar (c : Char) (l s2 r2 : List Char)
    (h : parseStrBody l = some (s2, r2)) :
    parseStrBody (escChar c ++ l) = some (c :: s2, r2) := by
  rw [escChar]
  split_ifs with h1 h2 h3 h4 h5 h6 h7 h8
  · subst h1
    rw [parseStrBody.eq_def]
    simp [unescChar, h]
  · subst h2
    rw [parseStrBody.eq_def]
    simp [unescChar, h]
  · subst h3
    rw [parseStrBody.eq_def]
    simp [unescChar, h]
  · subst h4
    rw [parseStrBody.eq_def]
    simp [unescChar, h]
  · subst h5
    rw [parseStrBody.eq_def]
    simp [unescChar, h]
  · have hq : hexVal (hexChar (c.toNat / 16)) = some (c.toNat / 16) :=
      hexVal_hexChar _ (by omega)
    have hr : hexVal (hexChar (c.toNat % 16)) = some (c.toNat % 16) :=
      hexVal_hexChar _ (by omega)
    have h0 : hexVal '0' = some 0 := rfl
    rw [parseStrBody.eq_def]
    simp [h0, hq, hr, h]
    all_goals
      convert Char.ofNat_toNat c using 2
      omega
  · have hlt : c.toNat < 256 := by
      rcases h7 with rfl | rfl | rfl <;> decide
    have hq : hexVal (hexChar (c.toNat / 16)) = some (c.toNat / 16) :=
      hexVal_hexChar _ (by omega)
    have hr : hexVal (hexChar (c.toNat % 16)) = some (c.toNat % 16) :=
      hexVal_hexChar _ (by omega)
    have h0 : hexVal '0' = some 0 := rfl
    rw [parseStrBody.eq_def]
    simp [h0, hq, hr, h]
    all_goals
      convert Char.ofNat_toNat c using 2
      omega
  · have hlt : c.toNat < 65536 := by omega
    have hq : hexVal (hexChar (c.toNat / 16 % 16)) = some (c.toNat / 16 % 16) :=
      hexVal_hexChar _ (by omega)
    have hr : hexVal (hexChar (c.toNat % 16)) = some (c.toNat % 16) :=
      hexVal_hexChar _ (by omega)
    have h0 : hexVal '0' = some 0 := rfl
    have h2v : hexVal '2' = some 2 := rfl
    rw [parseStrBody.eq_def]
    simp [h0, h2v, hq, hr, h]
    all_goals
      convert Char.ofNat_toNat c using 2
      omega
  · rw [parseStrBody.eq_def]
    simp [h1, h2, h]

theorem parseStrBody_escape (s rest : List Char) :
    parseStrBody (escapeStr s ++ '"' :: rest) = some (s, rest) := by
  induction s with
  | nil =>
    rw [show escapeStr [] ++ '"' :: rest = '"' :: rest from rfl, parseStrBody.eq_def]
    simp
  | cons c s ih =>
    rw [escapeStr, List.append_assoc]
    exact parseStrBody_escChar c _ s rest ih

theorem parseDigitsAux_spec (l : List Char) : ∀ (acc : Nat) (rest : List Char),
    (∀ c ∈ l, isDigitC c = true) → noDigitHead rest →
    parseDigitsAux (l ++ rest) acc =
      (List.foldl (fun a c => a * 10 + digitVal c) acc l, rest) := by
  induction l with
  | nil =>
    intro acc rest hdig hrest
    cases rest with
    | nil => rfl
    | cons c r =>
      have hc : isDigitC c = false := hrest
      simp [parseDigitsAux, hc]
  | cons c l ih =>
    intro acc rest hdig hrest
    have hc : isDigitC c = true := hdig c (by simp)
    rw [List.cons_append, parseDigitsAux, if_pos hc,
      ih (acc * 10 + digitVal c) rest (fun x hx => hdig x (by simp [hx])) hrest]
    rfl

theorem parseDigits_natDigits (n : Nat) (rest : List Char) (hrest : noDigitHead rest) :
    parseDigits (natDigits n ++ rest) = some (n, rest) := by
  obtain ⟨⟨c, tl, hct⟩, hdig, hval⟩ := natDigits_spec n
  rw [hct, List.cons_append]
  have hc : isDigitC c = true := hdig c (by rw [hct]; simp)
  rw [parseDigits, if_pos hc,
    parseDigitsAux_spec tl (digitVal c) rest (fun x hx => hdig x (by rw [hct]; simp [hx]))
      hrest]
  rw [hct] at hval
  simp only [List.foldl_cons] at hval
  rw [show (0 : Nat) * 10 + digitVal c = digitVal c by omega] at hval
  rw [hval]

theorem digit_head_facts (c : Char) (h : isDigitC c = true) :
    wsChar c = false ∧ c ≠ 'n' ∧ c ≠ 't' ∧ c ≠ 'f' ∧ c ≠ '"' ∧ c ≠ '-' ∧
    c ≠ '[' ∧ c ≠ '\x7b' ∧ c ≠ ']' ∧ c ≠ '\x7d' ∧ c ≠ ',' := by
  have hb : 48 ≤ c.toNat ∧ c.toNat ≤ 57 := by
    simpa [isDigitC, Bool.and_eq_true] using h
  refine ⟨?_, ?_, ?_, ?_, ?_, ?_, ?_, ?_, ?_, ?_, ?_⟩
  · cases hw : wsChar c
    · rfl
    · exfalso
      simp only [wsChar, Bool.or_eq_true, decide_eq_true_eq] at hw
      rcases hw with ((rfl | rfl) | rfl) | rfl <;> exact absurd hb (by decide)
  all_goals rintro rfl <;> exact absurd hb (by decide)

theorem skipWs_not (c : Char) (l : List Char) (h : wsChar c = false) :
    skipWs (c :: l) = c :: l := by
  simp [skipWs, h]

theorem skipWs_ws (c : Char) (l : List Char) (h : wsChar c = true) :
    skipWs (c :: l) = skipWs l := by
  simp [skipWs, h]

theorem skipWs_replicate (k : Nat) (l : List Char) :
    skipWs (List.replicate k ' ' ++ l) = skipWs l := by
  induction k with
  | zero => simp
  | succ k ih =>
    rw [List.replicate_succ, List.cons_append, skipWs_ws _ _ (by decide)]
    exact ih

theorem skipWs_indChars (d : Nat) (l : List Char) :
    skipWs (indChars d ++ l) = skipWs l :=
  skipWs_replicate (4 * d) l

theorem parseVal_congr (f : Nat) (a b : List Char) (h : skipWs a = skipWs b) :
    parseVal f a = parseVal f b := by
  cases f with
  | zero => rfl
  | succ f => rw [parseVal, parseVal, h]

theorem parseVal_cons_ws (f : Nat) (c : Char) (l : List Char) (h : wsChar c = true) :
    parseVal f (c :: l) = parseVal f l :=
  parseVal_congr f _ _ (skipWs_ws c l h)

theorem parseVal_indChars (f d : Nat) (l : List Char) :
    parseVal f (indChars d ++ l) = parseVal f l :=
  parseVal_congr f _ _ (skipWs_indChars d l)

theorem sizeV_pos (v : Value) : 1 ≤ sizeV v := by
  cases v <;> simp [sizeV]

theorem sizeL_pos (l : ValueList) : 1 ≤ sizeL l := by
  cases l <;> simp [sizeL]

theorem sizeM_pos (m : MemberList) : 1 ≤ sizeM m := by
  cases m <;> simp [sizeM]

theorem renderV_head (v : Value) (hv : goodV v = true) (d : Nat) :
    ∃ c tl, renderV v d = c :: tl ∧ wsChar c = false ∧ c ≠ ']' ∧ c ≠ '\x7d' ∧ c ≠ ',' := by
  cases v with
  | null => exact ⟨'n', _, rfl, by decide, by decide, by decide, by decide⟩
  | bool b =>
    cases b
    · exact ⟨'f', _, rfl, by decide, by decide, by decide, by decide⟩
    · exact ⟨'t', _, rfl, by decide, by decide, by decide, by decide⟩
  | int n =>
    by_cases hn : n < 0
    · exact ⟨'-', natDigits n.natAbs, by simp [renderV, intDigits, hn], by decide,
        by decide, by decide, by decide⟩
    · obtain ⟨⟨c, tl, hct⟩, hdig, _⟩ := natDigits_spec n.toNat
      have hc : isDigitC c = true := hdig c (by rw [hct]; simp)
      obtain ⟨hws, _, _, _, _, _, _, _, hbr, hbc, hcm⟩ := digit_head_facts c hc
      exact ⟨c, tl, by simp [renderV, intDigits, hn, hct], hws, hbr, hbc, hcm⟩
  | str s => exact ⟨'"', _, rfl, by decide, by decide, by decide, by decide⟩
  | arr l =>
    cases l
    · exact ⟨'[', _, rfl, by decide, by decide, by decide, by decide⟩
    · exact ⟨'[', _, rfl, by decide, by decide, by decide, by decide⟩
  | obj m =>
    cases m
    · exact ⟨'\x7b', _, rfl, by decide, by decide, by decide, by decide⟩
    · exact ⟨'\x7b', _, rfl, by decide, by decide, by decide, by decide⟩
  | unsupported => simp [goodV] at hv

/-- The parser undoes the renderer: with fuel at least the structural size,
parsing the rendered document (at any depth, followed by any non-digit-headed
remainder) returns the value and the remainder, for values, array tails and
member tails simultaneously. -/
theorem parse_render_main : ∀ N : Nat,
    (∀ v : Value, sizeV v ≤ N → goodV v = true → ∀ (e d : Nat) (rest : List Char),
      noDigitHead rest →
      parseVal (sizeV v + e) (renderV v d ++ rest) = some (v, rest)) ∧
    (∀ l : ValueList, sizeL l ≤ N → goodL l = true →
      ∀ (e d d2 : Nat) (rest : List Char),
      parseArrTail (sizeL l + e)
        (renderVTail l d ++ '\n' :: (indChars d2 ++ ']' :: rest)) = some (l, rest)) ∧
    (∀ m : MemberList, sizeM m ≤ N → goodM m = true →
      ∀ (e d d2 : Nat) (rest : List Char),
      parseObjTail (sizeM m + e)
        (renderMTail m d ++ '\n' :: (indChars d2 ++ '\x7d' :: rest)) = some (m, rest)) := by
  intro N
  induction N with
  | zero =>
    refine ⟨?_, ?_, ?_⟩
    · intro v hsz
      exact absurd hsz (by have := sizeV_pos v; omega)
    · intro l hsz
      exact absurd hsz (by have := sizeL_pos l; omega)
    · intro m hsz
      exact absurd hsz (by have := sizeM_pos m; omega)
  | succ N ih =>
    obtain ⟨ihV, ihL, ihM⟩ := ih
    refine ⟨?_, ?_, ?_⟩
    · intro v hsz hgood e d rest hrest
      cases v with
      | null =>
        rw [show sizeV Value.null + e = e + 1 from by simp only [sizeV]; omega]
        rfl
      | bool b =>
        rw [show sizeV (Value.bool b) + e = e + 1 from by simp only [sizeV]; omega]
        cases b <;> rfl
      | int n =>
        rw [show sizeV (Value.int n) + e = e + 1 from by simp only [sizeV]; omega]
        by_cases hn : n < 0
        · have hr : renderV (Value.int n) d ++ rest =
              '-' :: (natDigits n.natAbs ++ rest) := by
            simp [renderV, intDigits, hn]
          have hni : -((n.natAbs : Nat) : Int) = n := by omega
          rw [hr]
          simp only [parseVal, skipWs_not _ _ (by decide : wsChar '-' = false)]
          simp [parseDigits_natDigits n.natAbs rest hrest, hni]
          rw [abs_of_neg hn]
          omega
        · obtain ⟨⟨c, tl, hct⟩, hdig, _⟩ := natDigits_spec n.toNat
          have hc : isDigitC c = true := hdig c (by rw [hct]; simp)
          obtain ⟨hws, hn1, hn2, hn3, hn4, hn5, _, _, _, _, _⟩ := digit_head_facts c hc
          have hr : renderV (Value.int n) d ++ rest = c :: (tl ++ rest) := by
            simp [renderV, intDigits, hn, hct]
          rw [hr]
          simp only [parseVal, skipWs_not _ _ hws, if_neg hn1, if_neg hn2, if_neg hn3,
            if_neg hn4, if_neg hn5, if_pos hc]
          rw [show c :: (tl ++ rest) = natDigits n.toNat ++ rest by rw [hct]; rfl,
            parseDigits_natDigits n.toNat rest hrest]
          have hni : ((n.toNat : Nat) : Int) = n := by omega
          simp [hni]
      | str s =>
        rw [show sizeV (Value.str s) + e = e + 1 from by simp only [sizeV]; omega]
        have hr : renderV (Value.str s) d ++ rest =
            '"' :: (escapeStr s ++ '"' :: rest) := by
          simp [renderV]
        rw [hr]
        simp only [parseVal, skipWs_not _ _ (by decide : wsChar '"' = false)]
        simp [parseStrBody_escape s rest]
      | arr l =>
        cases l with
        | nil =>
          rw [show sizeV (Value.arr ValueList.nil) + e = (e + 1) + 1 from by
            simp only [sizeV, sizeL]; omega]
          rfl
        | cons v1 t =>
          have hgood2 : goodV v1 = true ∧ goodL t = true := by
            simpa [goodV, goodL, Bool.and_eq_true] using hgood
          obtain ⟨hg1, hgt⟩ := hgood2
          have hs1 : sizeV v1 ≤ N := by
            have h1 := sizeL_pos t
            simp only [sizeV, sizeL] at hsz
            omega
          have hst : sizeL t ≤ N := by
            have h1 := sizeV_pos v1
            simp only [sizeV, sizeL] at hsz
            omega
          rw [show sizeV (Value.arr (ValueList.cons v1 t)) + e =
              (sizeV v1 + sizeL t + 1 + e) + 1 from by simp only [sizeV, sizeL]; omega]
          have hr : renderV (Value.arr (ValueList.cons v1 t)) d ++ rest =
              '[' :: '\n' :: (indChars (d + 1) ++ (renderV v1 (d + 1) ++
                (renderVTail t (d + 1) ++ '\n' :: (indChars d ++ (']' :: rest))))) := by
            simp [renderV, List.append_assoc]
          rw [hr]
          have hnd : noDigitHead (renderVTail t (d + 1) ++
              '\n' :: (indChars d ++ (']' :: rest))) := by
            cases t
            · exact (by decide : isDigitC '\n' = false)
            · exact (by decide : isDigitC ',' = false)
          obtain ⟨c1, tl1, hA, hws1, hbr1, _, _⟩ := renderV_head v1 hg1 (d + 1)
          simp only [parseVal, skipWs_not _ _ (by decide : wsChar '[' = false)]
          rw [if_neg (by decide : ¬('[' : Char) = 'n'),
            if_neg (by decide : ¬('[' : Char) = 't'),
            if_neg (by decide : ¬('[' : Char) = 'f'),
            if_neg (by decide : ¬('[' : Char) = '"'),
            if_neg (by decide : ¬('[' : Char) = '-'),
            if_neg (by decide : ¬isDigitC '[' = true), if_true]
          rw [skipWs_ws _ _ (by decide : wsChar '\n' = true), skipWs_indChars, hA,
            List.cons_append, skipWs_not _ _ hws1]
          simp only [if_neg hbr1]
          rw [← List.cons_append, ← hA,
            show sizeV v1 + sizeL t + 1 + e = sizeV v1 + (sizeL t + 1 + e) from by omega,
            ihV v1 hs1 hg1 (sizeL t + 1 + e) (d + 1) _ hnd,
            show sizeV v1 + (sizeL t + 1 + e) = sizeL t + (sizeV v1 + 1 + e) from by
              omega]
          simp only [ihL t hst hgt (sizeV v1 + 1 + e) (d + 1) d rest]
      | obj m =>
        cases m with
        | nil =>
          rw [show sizeV (Value.obj MemberList.nil) + e = (e + 1) + 1 from by
            simp only [sizeV, sizeM]; omega]
          rfl
        | cons k v1 t =>
          have hgood2 : goodV v1 = true ∧ goodM t = true := by
            simpa [goodV, goodM, Bool.and_eq_true] using hgood
          obtain ⟨hg1, hgt⟩ := hgood2
          have hs1 : sizeV v1 ≤ N := by
            have h1 := sizeM_pos t
            simp only [sizeV, sizeM] at hsz
            omega
          have hst : sizeM t ≤ N := by
            have h1 := sizeV_pos v1
            simp only [sizeV, sizeM] at hsz
            omega
          rw [show sizeV (Value.obj (MemberList.cons k v1 t)) + e =
              (sizeV v1 + sizeM t + 1 + e) + 1 from by simp only [sizeV, sizeM]; omega]
          have hr : renderV (Value.obj (MemberList.cons k v1 t)) d ++ rest =
              '\x7b' :: '\n' :: (indChars (d + 1) ++ ('"' :: (escapeStr k ++
                '"' :: ':' :: ' ' :: (renderV v1 (d + 1) ++ (renderMTail t (d + 1) ++
                  '\n' :: (indChars d ++ ('\x7d' :: rest))))))) := by
            simp [renderV, List.append_assoc]
          rw [hr]
          have hnd : noDigitHead (renderMTail t (d + 1) ++
              '\n' :: (indChars d ++ ('\x7d' :: rest))) := by
            cases t
            · exact (by decide : isDigitC '\n' = false)
            · exact (by decide : isDigitC ',' = false)
          simp only [parseVal, skipWs_not _ _ (by decide : wsChar '\x7b' = false)]
          rw [if_neg (by decide : ¬('\x7b' : Char) = 'n'),
            if_neg (by decide : ¬('\x7b' : Char) = 't'),
            if_neg (by decide : ¬('\x7b' : Char) = 'f'),
            if_neg (by decide : ¬('\x7b' : Char) = '"'),
            if_neg (by decide : ¬('\x7b' : Char) = '-'),
            if_neg (by decide : ¬isDigitC '\x7b' = true),
            if_neg (by decide : ¬('\x7b' : Char) = '['), if_true]
          rw [skipWs_ws _ _ (by decide : wsChar '\n' = true), skipWs_indChars,
            skipWs_not _ _ (by decide : wsChar '"' = false)]
          simp only [if_neg (by decide : ¬('"' : Char) = '\x7d'), if_true]
          rw [parseStrBody_escape k (':' :: ' ' :: (renderV v1 (d + 1) ++
            (renderMTail t (d + 1) ++ '\n' :: (indChars d ++ ('\x7d' :: rest)))))]
          simp only [skipWs_not _ _ (by decide : wsChar ':' = false)]
          rw [parseVal_cons_ws _ _ _ (by decide : wsChar ' ' = true),
            show sizeV v1 + sizeM t + 1 + e = sizeV v1 + (sizeM t + 1 + e) from by omega,
            ihV v1 hs1 hg1 (sizeM t + 1 + e) (d + 1) _ hnd,
            show sizeV v1 + (sizeM t + 1 + e) = sizeM t + (sizeV v1 + 1 + e) from by
              omega]
          simp only [ihM t hst hgt (sizeV v1 + 1 + e) (d + 1) d rest]
      | unsupported => simp [goodV] at hgood
    · intro l hsz hgood e d d2 rest
      cases l with
      | nil =>
        rw [show sizeL ValueList.nil + e = e + 1 from by simp only [sizeL]; omega,
          show renderVTail ValueList.nil d ++ '\n' :: (indChars d2 ++ ']' :: rest) =
            '\n' :: (indChars d2 ++ ']' :: rest) from rfl]
        simp only [parseArrTail, skipWs_ws _ _ (by decide : wsChar '\n' = true),
          skipWs_indChars, skipWs_not _ _ (by decide : wsChar ']' = false), if_true]
      | cons v1 t =>
        have hgood2 : goodV v1 = true ∧ goodL t = true := by
          simpa [goodL, Bool.and_eq_true] using hgood
        obtain ⟨hg1, hgt⟩ := hgood2
        have hs1 : sizeV v1 ≤ N := by
          have h1 := sizeL_pos t
          simp only [sizeL] at hsz
          omega
        have hst : sizeL t ≤ N := by
          have h1 := sizeV_pos v1
          simp only [sizeL] at hsz
          omega
        rw [show sizeL (ValueList.cons v1 t) + e = (sizeV v1 + sizeL t + e) + 1 from by
          simp only [sizeL]; omega]
        have hr : renderVTail (ValueList.cons v1 t) d ++
            '\n' :: (indChars d2 ++ ']' :: rest) =
            ',' :: '\n' :: (indChars d ++ (renderV v1 d ++ (renderVTail t d ++
              '\n' :: (indChars d2 ++ (']' :: rest))))) := by
          simp [renderVTail, List.append_assoc]
        rw [hr]
        have hnd : noDigitHead (renderVTail t d ++
            '\n' :: (indChars d2 ++ (']' :: rest))) := by
          cases t
          · exact (by decide : isDigitC '\n' = false)
          · exact (by decide : isDigitC ',' = false)
        simp only [parseArrTail, skipWs_not _ _ (by decide : wsChar ',' = false)]
        rw [if_neg (by decide : ¬(',' : Char) = ']'), if_true]
        rw [parseVal_cons_ws _ _ _ (by decide : wsChar '\n' = true),
          parseVal_indChars,
          show sizeV v1 + sizeL t + e = sizeV v1 + (sizeL t + e) from by omega,
          ihV v1 hs1 hg1 (sizeL t + e) d _ hnd,
          show sizeV v1 + (sizeL t + e) = sizeL t + (sizeV v1 + e) from by omega]
        simp only [ihL t hst hgt (sizeV v1 + e) d d2 rest]
    · intro m hsz hgood e d d2 rest
      cases m with
      | nil =>
        rw [show sizeM MemberList.nil + e = e + 1 from by simp only [sizeM]; omega,
          show renderMTail MemberList.nil d ++ '\n' :: (indChars d2 ++ '\x7d' :: rest) =
            '\n' :: (indChars d2 ++ '\x7d' :: rest) from rfl]
        simp only [parseObjTail, skipWs_ws _ _ (by decide : wsChar '\n' = true),
          skipWs_indChars, skipWs_not _ _ (by decide : wsChar '\x7d' = false), if_true]
      | cons k v1 t =>
        have hgood2 : goodV v1 = true ∧ goodM t = true := by
          simpa [goodM, Bool.and_eq_true] using hgood
        obtain ⟨hg1, hgt⟩ := hgood2
        have hs1 : sizeV v1 ≤ N := by
          have h1 := sizeM_pos t
          simp only [sizeM] at hsz
          omega
        have hst : sizeM t ≤ N := by
          have h1 := sizeV_pos v1
          simp only [sizeM] at hsz
          omega
        rw [show sizeM (MemberList.cons k v1 t) + e = (sizeV v1 + sizeM t + e) + 1 from by
          simp only [sizeM]; omega]
        have hr : renderMTail (MemberList.cons k v1 t) d ++
            '\n' :: (indChars d2 ++ '\x7d' :: rest) =
            ',' :: '\n' :: (indChars d ++ ('"' :: (escapeStr k ++
              '"' :: ':' :: ' ' :: (renderV v1 d ++ (renderMTail t d ++
                '\n' :: (indChars d2 ++ ('\x7d' :: rest))))))) := by
          simp [renderMTail, List.append_assoc]
        rw [hr]
        have hnd : noDigitHead (renderMTail t d ++
            '\n' :: (indChars d2 ++ ('\x7d' :: rest))) := by
          cases t
          · exact (by decide : isDigitC '\n' = false)
          · exact (by decide : isDigitC ',' = false)
        simp only [parseObjTail, skipWs_not _ _ (by decide : wsChar ',' = false)]
        rw [if_neg (by decide : ¬(',' : Char) = '\x7d'), if_true]
        rw [skipWs_ws _ _ (by decide : wsChar '\n' = true), skipWs_indChars,
          skipWs_not _ _ (by decide : wsChar '"' = false)]
        simp only [parseStrBody_escape k (':' :: ' ' :: (renderV v1 d ++
          (renderMTail t d ++ '\n' :: (indChars d2 ++ ('\x7d' :: rest))))),
          skipWs_not _ _ (by decide : wsChar ':' = false)]
        rw [parseVal_cons_ws _ _ _ (by decide : wsChar ' ' = true),
          show sizeV v1 + sizeM t + e = sizeV v1 + (sizeM t + e) from by omega,
          ihV v1 hs1 hg1 (sizeM t + e) d _ hnd,
          show sizeV v1 + (sizeM t + e) = sizeM t + (sizeV v1 + e) from by omega]
        simp only [ihM t hst hgt (sizeV v1 + e) d d2 rest]

theorem size_le_render : ∀ N : Nat,
    (∀ v : Value, sizeV v ≤ N → goodV v = true → ∀ d, sizeV v ≤ (renderV v d).length) ∧
    (∀ l : ValueList, sizeL l ≤ N → goodL l = true →
      ∀ d, sizeL l ≤ (renderVTail l d).length + 1) ∧
    (∀ m : MemberList, sizeM m ≤ N → goodM m = true →
      ∀ d, sizeM m ≤ (renderMTail m d).length + 1) := by
  intro N
  induction N with
  | zero =>
    refine ⟨?_, ?_, ?_⟩
    · intro v hsz
      exact absurd hsz (by have := sizeV_pos v; omega)
    · intro l hsz
      exact absurd hsz (by have := sizeL_pos l; omega)
    · intro m hsz
      exact absurd hsz (by have := sizeM_pos m; omega)
  | succ N ih =>
    obtain ⟨ihV, ihL, ihM⟩ := ih
    refine ⟨?_, ?_, ?_⟩
    · intro v hsz hgood d
      cases v with
      | null => simp [sizeV, renderV]
      | bool b => cases b <;> simp [sizeV, renderV]
      | int n =>
        by_cases hn : n < 0
        · simp [sizeV, renderV, intDigits, hn]
        · obtain ⟨⟨c, tl, hct⟩, _, _⟩ := natDigits_spec n.toNat
          simp [sizeV, renderV, intDigits, hn, hct]
      | str s => simp [sizeV, renderV]
      | arr l =>
        cases l with
        | nil => simp [sizeV, sizeL, renderV]
        | cons v1 t =>
          have hgood2 : goodV v1 = true ∧ goodL t = true := by
            simpa [goodV, goodL, Bool.and_eq_true] using hgood
          obtain ⟨hg1, hgt⟩ := hgood2
          have hs1 : sizeV v1 ≤ N := by
            have h0 := sizeL_pos t
            simp only [sizeV, sizeL] at hsz
            omega
          have hst : sizeL t ≤ N := by
            have h0 := sizeV_pos v1
            simp only [sizeV, sizeL] at hsz
            omega
          have h1 := ihV v1 hs1 hg1 (d + 1)
          have h2 := ihL t hst hgt (d + 1)
          simp only [sizeV, sizeL, renderV, List.length_cons, List.length_append]
          omega
      | obj m =>
        cases m with
        | nil => simp [sizeV, sizeM, renderV]
        | cons k v1 t =>
          have hgood2 : goodV v1 = true ∧ goodM t = true := by
            simpa [goodV, goodM, Bool.and_eq_true] using hgood
          obtain ⟨hg1, hgt⟩ := hgood2
          have hs1 : sizeV v1 ≤ N := by
            have h0 := sizeM_pos t
            simp only [sizeV, sizeM] at hsz
            omega
          have hst : sizeM t ≤ N := by
            have h0 := sizeV_pos v1
            simp only [sizeV, sizeM] at hsz
            omega
          have h1 := ihV v1 hs1 hg1 (d + 1)
          have h2 := ihM t hst hgt (d + 1)
          simp only [sizeV, sizeM, renderV, List.length_cons, List.length_append]
          omega
      | unsupported => simp [goodV] at hgood
    · intro l hsz hgood d
      cases l with
      | nil => simp [sizeL, renderVTail]
      | cons v1 t =>
        have hgood2 : goodV v1 = true ∧ goodL t = true := by
          simpa [goodL, Bool.and_eq_true] using hgood
        obtain ⟨hg1, hgt⟩ := hgood2
        have hs1 : sizeV v1 ≤ N := by
          have h0 := sizeL_pos t
          simp only [sizeL] at hsz
          omega
        have hst : sizeL t ≤ N := by
          have h0 := sizeV_pos v1
          simp only [sizeL] at hsz
          omega
        have h1 := ihV v1 hs1 hg1 d
        have h2 := ihL t hst hgt d
        simp only [sizeL, renderVTail, List.length_cons, List.length_append]
        omega
    · intro m hsz hgood d
      cases m with
      | nil => simp [sizeM, renderMTail]
      | cons k v1 t =>
        have hgood2 : goodV v1 = true ∧ goodM t = true := by
          simpa [goodM, Bool.and_eq_true] using hgood
        obtain ⟨hg1, hgt⟩ := hgood2
        have hs1 : sizeV v1 ≤ N := by
          have h0 := sizeM_pos t
          simp only [sizeM] at hsz
          omega
        have hst : sizeM t ≤ N := by
          have h0 := sizeV_pos v1
          simp only [sizeM] at hsz
          omega
        have h1 := ihV v1 hs1 hg1 d
        have h2 := ihM t hst hgt d
        simp only [sizeM, renderMTail, List.length_cons, List.length_append]
        omega

theorem parseJson_renderV (v : Value) (hgood : goodV v = true) :
    parseJson (String.mk (renderV v 0)) = some v := by
  have hsz := (size_le_render (sizeV v)).1 v le_rfl hgood 0
  have hmain := (parse_render_main (sizeV v)).1 v le_rfl hgood
    ((renderV v 0).length + 1 - sizeV v) 0 [] trivial
  rw [List.append_nil] at hmain
  rw [show sizeV v + ((renderV v 0).length + 1 - sizeV v) = (renderV v 0).length + 1 from
    by omega] at hmain
  simp [parseJson, hmain, skipWs]

/-- C7: `StructToJson` either returns the four-space-indented JSON rendering
of the value with a nil error, or, when the value cannot be represented as
JSON (it contains an unsupported part, modelling a cyclic or unsupported Go
value), the empty string together with an error wrapping the encoder's
cause; being a total function it returns in both cases, never terminating
the process. -/
theorem C7_structToJson (v : Value) :
    (goodV v = true ∧ StructToJson v = (String.mk (renderV v 0), none)) ∨
    (goodV v = false ∧ StructToJson v =
      ("", some ("failed to convert struct to JSON: " ++ jsonUnsupportedMsg))) := by
  by_cases h : goodV v
  · exact Or.inl ⟨h, by simp [StructToJson, marshalIndent, h]⟩
  · exact Or.inr ⟨by simpa using h, by simp [StructToJson, marshalIndent, h]⟩

/-- C8: parsing the output of `StructToJson` reproduces a structurally equal
value for every value composed of primitives, ordered sequences and field
records; a value containing a part JSON cannot represent makes
`StructToJson` fail with the wrapped serialization error instead. -/
theorem C8_roundtrip (v : Value) :
    (goodV v = true → parseJson (StructToJson v).1 = some v) ∧
    (goodV v = false → StructToJson v =
      ("", some ("failed to convert struct to JSON: " ++ jsonUnsupportedMsg))) := by
  constructor
  · intro h
    have h1 : (StructToJson v).1 = String.mk (renderV v 0) := by
      simp [StructToJson, marshalIndent, h]
    rw [h1]
    exact parseJson_renderV v h
  · intro h
    simp [StructToJson, marshalIndent, h]

theorem C8_witness :
    parseJson (StructToJson (Value.obj (MemberList.cons ['a'] (Value.int (-3))
        (MemberList.cons ['b'] (Value.arr (ValueList.cons (Value.str ['h', 'i'])
          ValueList.nil)) MemberList.nil)))).1 =
      some (Value.obj (MemberList.cons ['a'] (Value.int (-3))
        (MemberList.cons ['b'] (Value.arr (ValueList.cons (Value.str ['h', 'i'])
          ValueList.nil)) MemberList.nil))) :=
  (C8_roundtrip (Value.obj (MemberList.cons ['a'] (Value.int (-3))
    (MemberList.cons ['b'] (Value.arr (ValueList.cons (Value.str ['h', 'i'])
      ValueList.nil)) MemberList.nil)))).1 (by decide)
